import Mathlib

/-!
Verification development for the DPLabsDemo transaction-analytics core
(`services/solana_services.go` and the PnL accountant).  The Go source is
shallowly embedded: pure functions become Lean functions, the mutable
pointer-based instruction tree becomes an explicit node store keyed by the
node index, Go `float64` arithmetic in the accountant is modelled over `ℚ`,
machine integers are `Nat`/`Int` with explicit range checks where the source
checks them, and fallible code returns `Except`/a `GoResult` that also
distinguishes Go runtime panics from returned errors.
-/

namespace SolanaPnl

/-! ## Basic helpers: byte strings, base58, hex, decimal strings -/

/-- Bytes of a `solana.PublicKey` ([32]byte in the source), as a byte list. -/
abbrev Pubkey := List Nat

/-- Alphabet used by `solana.PublicKey.String()` (base58). -/
def base58Alphabet : List Char := "123456789ABCDEFGHJKLMNPQRSTUVWXYZabcdefghijkmnopqrstuvwxyz".data

/-- Big-endian interpretation of a byte list as a natural number. -/
def bytesToNat (bs : List Nat) : Nat := bs.foldl (fun acc b => acc * 256 + b) 0

/-- Base58 digit expansion (least-significant first, accumulator holds the
most-significant-first result); structural fuel recursion so that concrete
values reduce (two base58 digits cover one byte, so `2 × byte-count` fuel
is always enough). -/
def base58Digits : Nat → Nat → List Char → List Char
  | 0, _, acc => acc
  | _ + 1, 0, acc => acc
  | fuel + 1, n, acc =>
    base58Digits fuel (n / 58) (base58Alphabet.getD (n % 58) '1' :: acc)

/-- String form of a public key, as produced by `PublicKey.String()`:
leading zero bytes map to '1', the remaining value is base58 encoded. -/
def pubkeyString (pk : Pubkey) : String :=
  let leading := (pk.takeWhile (fun b => b == 0)).length
  let n := bytesToNat pk
  String.mk (List.replicate leading '1' ++ base58Digits (2 * pk.length) n [])

/-- Lower-case hex digit. -/
def hexChar (n : Nat) : Char := "0123456789abcdef".data.getD n '0'

/-- Models `hex.EncodeToString` on a byte list. -/
def hexEncode (bs : List Nat) : String :=
  String.mk (bs.foldr (fun b acc => hexChar (b / 16 % 16) :: hexChar (b % 16) :: acc) [])

/-- Digits of a character list interpreted base 10. -/
def digitsToNat (cs : List Char) : Nat := cs.foldl (fun a c => a * 10 + (c.toNat - 48)) 0

/-- Models `new(big.Int).SetString(s, 10)`: optional sign, at least one
decimal digit, arbitrary precision. -/
def parseDecInt (s : String) : Option Int :=
  match s.data with
  | [] => none
  | '-' :: rest =>
    if rest.isEmpty then none
    else if rest.all Char.isDigit then some (-(digitsToNat rest : Int)) else none
  | '+' :: rest =>
    if rest.isEmpty then none
    else if rest.all Char.isDigit then some (digitsToNat rest : Int) else none
  | cs => if cs.all Char.isDigit then some (digitsToNat cs : Int) else none

/-- Models Go `strconv.ParseInt(s, 10, 64)`: optional sign, decimal digits
only, and the value must fit a signed 64-bit integer (otherwise Go reports
`ErrRange`, still a non-nil error). -/
def parseInt64 (s : String) : Except String Int :=
  let cs := s.data
  let signAndDigits : Bool × List Char :=
    match cs with
    | '-' :: rest => (true, rest)
    | '+' :: rest => (false, rest)
    | _ => (false, cs)
  let neg := signAndDigits.1
  let ds := signAndDigits.2
  if ds.isEmpty then .error "invalid syntax"
  else if ds.all Char.isDigit then
    let v : Int := if neg then -(digitsToNat ds : Int) else (digitsToNat ds : Int)
    if v < -(2 ^ 63) || v > 2 ^ 63 - 1 then .error "value out of range"
    else .ok v
  else .error "invalid syntax"

/-! ## Association-list model of Go string-keyed maps -/

/-- Go `map[string]α`, modelled as an association list.  Go map iteration
order is unspecified; every map produced below is only ever read back
per-key, so the list order is unobservable in the embedded results. -/
abbrev MapStr (α : Type) := List (String × α)

def mapFind {α : Type} (m : MapStr α) (k : String) : Option α :=
  (m.find? (fun p => p.1 == k)).map (·.2)

def mapInsert {α : Type} (m : MapStr α) (k : String) (v : α) : MapStr α :=
  if (m.find? (fun p => p.1 == k)).isSome then
    m.map (fun p => if p.1 == k then (k, v) else p)
  else m ++ [(k, v)]

/-- Two-level map write `m[k1][k2] = v`, creating the inner map when absent
(the source guards every write with an explicit make). -/
def mapInsert2 {α : Type} (m : MapStr (MapStr α)) (k1 k2 : String) (v : α) : MapStr (MapStr α) :=
  mapInsert m k1 (mapInsert ((mapFind m k1).getD []) k2 v)

def mapFind2 {α : Type} (m : MapStr (MapStr α)) (k1 k2 : String) : Option α :=
  (mapFind m k1).bind (fun inner => mapFind inner k2)

/-! ## Transaction data model (`rpc.GetTransactionResult`, `Transaction`) -/

/-- One compiled instruction of a transaction message. -/
structure CompiledInstruction where
  programIDIndex : Nat
  data : List Nat
  accounts : List Nat
deriving DecidableEq, Repr

/-- One inner-instruction group of the transaction meta; `index` names the
top-level instruction that spawned the group. -/
structure InnerInstructionGroup where
  index : Nat
  instructions : List CompiledInstruction
deriving DecidableEq, Repr

/-- Models `rpc.UiTokenAmount` (the `UiAmount` float is never written by the
source and is omitted). -/
structure UiTokenAmountM where
  amount : String
  decimals : Nat
  uiAmountString : String
deriving DecidableEq, Repr

/-- One entry of `meta.PreTokenBalances` / `meta.PostTokenBalances`. -/
structure TokenBalanceM where
  accountIndex : Nat
  owner : Pubkey
  mint : Pubkey
  uiTokenAmount : UiTokenAmountM
deriving DecidableEq, Repr

structure LoadedAddressesM where
  writable : List Pubkey
  readOnly : List Pubkey
deriving DecidableEq, Repr

/-- Transaction meta.  `preBalances`/`postBalances` are lamport balances per
account (`uint64` in the source; lamport supplies fit in `int64`, which the
source silently assumes when casting). -/
structure MetaM where
  innerInstructions : List InnerInstructionGroup
  preBalances : List Nat
  postBalances : List Nat
  preTokenBalances : List TokenBalanceM
  postTokenBalances : List TokenBalanceM
  loadedAddresses : LoadedAddressesM
deriving DecidableEq, Repr

/-- Transaction message, already decoded (the source's
`tx.Transaction.GetTransaction()` binary decoding is outside this model). -/
structure MessageM where
  accountKeys : List Pubkey
  instructions : List CompiledInstruction
  isLegacyVersion : Bool
deriving DecidableEq, Repr

/-- Models `rpc.GetTransactionResult` as consumed by the analytics code. -/
structure TxModel where
  message : MessageM
  meta : Option MetaM
deriving DecidableEq, Repr

/-- Models the cached `Transaction` struct of the fetcher.  `BlockTime` is
the unix time as an integer (`time.Time` constructed by `time.Unix`). -/
structure Transaction where
  Signature : String
  Slot : Nat
  BlockTime : Int
  RawTx : TxModel
deriving DecidableEq, Repr

/-! ## Transaction sorting (`sortTransactionsByTime`) -/

/-- Swap condition of the inner loop of `sortTransactionsByTime`:
`txs[j].BlockTime.Before(txs[i].BlockTime)` or equal times with a smaller
slot. -/
def txLess (a b : Transaction) : Bool :=
  a.BlockTime < b.BlockTime || (a.BlockTime == b.BlockTime && a.Slot < b.Slot)

/-- Non-strict (blockTime, slot) lexicographic order on transactions. -/
def txLe (a b : Transaction) : Prop :=
  a.BlockTime < b.BlockTime ∨ (a.BlockTime = b.BlockTime ∧ a.Slot ≤ b.Slot)

/-- Inner loop of `sortTransactionsByTime` at a fixed outer index `i`:
`x` is the current value of `txs[i]`, the list holds positions `i+1 ..`;
whenever a later element compares below `x` the two are swapped in place. -/
def sortInner : Transaction → List Transaction → Transaction × List Transaction
  | x, [] => (x, [])
  | x, y :: ys =>
    if txLess y x then
      let r := sortInner y ys
      (r.1, x :: r.2)
    else
      let r := sortInner x ys
      (r.1, y :: r.2)

/-- Outer loop of `sortTransactionsByTime`; the fuel equals the list length
(each outer step fixes one position). -/
def sortOuter : Nat → List Transaction → List Transaction
  | 0, l => l
  | _ + 1, [] => []
  | fuel + 1, x :: xs =>
    let r := sortInner x xs
    r.1 :: sortOuter fuel r.2

/-- Models `sortTransactionsByTime` (the in-place double loop of the
source, rendered as a pure function on lists). -/
def sortTransactionsByTime (txs : List Transaction) : List Transaction :=
  sortOuter txs.length txs

/-- Models `GetTransactions` after the network phase: the merged list of
cache hits and newly fetched transactions (arriving in arbitrary merge
order) is sorted by (block time, slot).  Signature pagination and the RPC
fetches are I/O and outside the model. -/
def GetTransactionsModel (merged : List Transaction) : List Transaction :=
  sortTransactionsByTime merged

/-! ## Instruction tree builder (`getAllInstructionsWithStackHeight`,
`ParseInstructionTreeByStackHeight`) -/

/-- Models the source's `indexedInstruction`. -/
structure IndexedInstruction where
  Index : Int
  ParentTopIndex : Int
  StackHeight : Nat
  ProgramIDIndex : Nat
  Data : List Nat
  Accounts : List Nat
deriving DecidableEq, Repr

/-- Models the source's `StackInstructionNode`; the `Parent`/`Children`
pointers become node indices resolved through a node store. -/
structure StackInstructionNode where
  Index : Int
  StackHeight : Nat
  ProgramIDIndex : Nat
  Data : List Nat
  Accounts : List Nat
  Parent : Option Int
  Children : List Int
deriving DecidableEq, Repr

/-- The mutable pointer graph of the source (`nodeMap` plus the node
structs it points to), modelled as an association list keyed by `Index`. -/
abbrev NodeStore := List (Int × StackInstructionNode)

def lookupNode (store : NodeStore) (i : Int) : Option StackInstructionNode :=
  (store.find? (fun p => p.1 == i)).map (·.2)

def insertNode (store : NodeStore) (i : Int) (n : StackInstructionNode) : NodeStore :=
  store ++ [(i, n)]

def updateNode (store : NodeStore) (i : Int) (f : StackInstructionNode → StackInstructionNode) : NodeStore :=
  store.map (fun p => if p.1 == i then (p.1, f p.2) else p)

def storeKeys (store : NodeStore) : List Int := store.map (·.1)

/-- Step 1 of `getAllInstructionsWithStackHeight`: top-level instructions
become entries with stack height 0 and no parent, indexed in order
(`for i, ix := range topLevelInstrs`). -/
def topLevelIndexedFrom (i : Nat) : List CompiledInstruction → List IndexedInstruction
  | [] => []
  | ix :: rest =>
    { Index := (i : Int), ParentTopIndex := -1, StackHeight := 0,
      ProgramIDIndex := ix.programIDIndex, Data := ix.data, Accounts := ix.accounts }
      :: topLevelIndexedFrom (i + 1) rest

/-- Step 2 of `getAllInstructionsWithStackHeight` for one inner group: the
group's top-level index is validated, the children get stack height
(parent's height + 1), and each appended entry takes the next global index
(`len(allInstr)`).  `group.index` is a `uint16` in the source, so the
`< 0` half of the validation cannot fire and is not modelled. -/
def addInnerGroup (topLen : Nat) (acc : List IndexedInstruction) (group : InnerInstructionGroup) :
    Except String (List IndexedInstruction) :=
  let parentTopIndex := group.index
  if topLen ≤ parentTopIndex then .error "invalid parent top-level instruction index"
  else
    let parentStackHeight := ((acc.get? parentTopIndex).map (·.StackHeight)).getD 0
    let childStackHeight := parentStackHeight + 1
    .ok (group.instructions.foldl
      (fun l ix =>
        l ++ [{ Index := (l.length : Int), ParentTopIndex := (parentTopIndex : Int),
                StackHeight := childStackHeight, ProgramIDIndex := ix.programIDIndex,
                Data := ix.data, Accounts := ix.accounts }])
      acc)

/-- Convenience accessor: the inner-instruction groups of a transaction
(`tx.Meta != nil && tx.Meta.InnerInstructions != nil` in the source; a nil
slice behaves like an empty one). -/
def metaInnerGroups (tx : TxModel) : List InnerInstructionGroup :=
  match tx.meta with
  | some m => m.innerInstructions
  | none => []

/-- Models `getAllInstructionsWithStackHeight`. -/
def getAllInstructionsWithStackHeight (tx : TxModel) : Except String (List IndexedInstruction) :=
  let allInstr := topLevelIndexedFrom 0 tx.message.instructions
  (metaInnerGroups tx).foldlM (addInnerGroup tx.message.instructions.length) allInstr

/-- Insertion step of the defensive re-sort by global index
(`sort.Slice` by `Index`; indices are pairwise distinct, so any correct
sorting algorithm produces the same list). -/
def insertByIndex (x : IndexedInstruction) : List IndexedInstruction → List IndexedInstruction
  | [] => [x]
  | y :: ys => if x.Index ≤ y.Index then x :: y :: ys else y :: insertByIndex x ys

def sortByIndex : List IndexedInstruction → List IndexedInstruction
  | [] => []
  | x :: xs => insertByIndex x (sortByIndex xs)

/-- Upward phase of `findParentByStackHeight`: walk the parent chain from
`idx` (inclusive) looking for stack height `target`.  The source walks
pointers on a finite acyclic graph; the fuel bounds that walk. -/
def findParentUp (store : NodeStore) : Nat → Int → Nat → Option Int
  | 0, _, _ => none
  | fuel + 1, idx, target =>
    match lookupNode store idx with
    | none => none
    | some n =>
      if n.StackHeight = target then some idx
      else
        match n.Parent with
        | some p => findParentUp store fuel p target
        | none => none

/-- Models `findChildByStackHeight`: depth-first search of the subtree for
a node with the target stack height. -/
def findChildByStackHeight (store : NodeStore) : Nat → Int → Nat → Option Int
  | 0, _, _ => none
  | fuel + 1, idx, target =>
    match lookupNode store idx with
    | none => none
    | some n =>
      if n.StackHeight = target then some idx
      else n.Children.findSome? (fun c => findChildByStackHeight store fuel c target)

/-- Models `findParentByStackHeight`: walk up from the start node, and if
the chain ends without a match, search the start node's subtree. -/
def findParentByStackHeight (store : NodeStore) (fuel : Nat) (startIdx : Int) (target : Nat) : Option Int :=
  match findParentUp store fuel startIdx target with
  | some i => some i
  | none => findChildByStackHeight store fuel startIdx target

/-- Node-construction loop of `ParseInstructionTreeByStackHeight`:
each instruction becomes a node; top-level entries join the root list,
inner entries are attached to the node found at stack height
`StackHeight - 1` starting from their owning top-level node.  (In the
source the node is put into `nodeMap` before the parent search; the fresh
node is unreachable from the search start, so the order is immaterial.) -/
def buildNodes : List IndexedInstruction → NodeStore → List Int → Except String (NodeStore × List Int)
  | [], store, roots => .ok (store, roots)
  | instr :: rest, store, roots =>
    let node : StackInstructionNode :=
      { Index := instr.Index, StackHeight := instr.StackHeight,
        ProgramIDIndex := instr.ProgramIDIndex, Data := instr.Data,
        Accounts := instr.Accounts, Parent := none, Children := [] }
    if instr.ParentTopIndex == -1 then
      buildNodes rest (insertNode store instr.Index node) (roots ++ [instr.Index])
    else
      match lookupNode store instr.ParentTopIndex with
      | none => .error "missing parent top-level instruction node"
      | some _ =>
        match findParentByStackHeight store (store.length + 1) instr.ParentTopIndex (instr.StackHeight - 1) with
        | none => .error "no parent node with the required stack height"
        | some parentIdx =>
          let store1 := insertNode store instr.Index { node with Parent := some parentIdx }
          let store2 := updateNode store1 parentIdx (fun p => { p with Children := p.Children ++ [instr.Index] })
          buildNodes rest store2 roots

/-- Models `ParseInstructionTreeByStackHeight`; the returned pair is the
final node store together with the index of the returned root node. -/
def ParseInstructionTreeByStackHeight (tx : TxModel) : Except String (NodeStore × Int) :=
  match getAllInstructionsWithStackHeight tx with
  | .error e => .error e
  | .ok allInstructions =>
    if allInstructions.length = 0 then .error "transaction contains no instructions"
    else
      match buildNodes (sortByIndex allInstructions) [] [] with
      | .error e => .error e
      | .ok (store, rootNodes) =>
        if rootNodes.length > 1 then
          let virtualRoot : StackInstructionNode :=
            { Index := -1, StackHeight := 0, ProgramIDIndex := 0, Data := [],
              Accounts := [], Parent := none, Children := rootNodes }
          let store1 := insertNode store (-1) virtualRoot
          let store2 := rootNodes.foldl
            (fun s r => updateNode s r (fun n => { n with Parent := some (-1) })) store1
          .ok (store2, -1)
        else
          match rootNodes with
          | [r] => .ok (store, r)
          | _ => .error "no root nodes"

/-- Depth of a node below its top-level ancestor in the reconstructed tree:
0 for a node whose parent is absent or is the synthetic root, otherwise one
more than its parent's depth. -/
def nodeDepth (store : NodeStore) : Nat → Int → Option Nat
  | 0, _ => none
  | fuel + 1, i =>
    match lookupNode store i with
    | none => none
    | some n =>
      match n.Parent with
      | none => some 0
      | some p => if p = -1 then some 0 else (nodeDepth store fuel p).map (· + 1)

/-! ## Swap event locator (`FindNodesByProgramID`) and full account keys -/

/-- Discriminator of the Jupiter route instruction (`Data[0:8]`). -/
def routeTag : String := "e517cb977ae3ad2a"

/-- First discriminator of a Jupiter swap event (`Data[0:8]`). -/
def eventTag : String := "e445a52e51cb9a1d"

/-- Second discriminator of a Jupiter swap event (`Data[8:16]`). -/
def eventTag2 : String := "40c6cde8260871e2"

/-- Go result kind: a value, a returned error, or a runtime panic (which a
Go function can never convert into a normal return). -/
inductive GoResult (α : Type) where
  | ok (a : α)
  | fail (e : String)
  | crash (m : String)
deriving DecidableEq, Repr

/-- Recursive traversal of `FindNodesByProgramID`: visit a node, classify
it when its program id matches the target (the source slices `Data[0:8]`
and `Data[8:16]` unconditionally on a match, which panics when the data is
shorter than 16 bytes — modelled as an error result), then visit the
children in order. -/
def findNodesTraverse (keys : List Pubkey) (store : NodeStore) (target : Pubkey) :
    Nat → Int → List StackInstructionNode × List StackInstructionNode →
    Except String (List StackInstructionNode × List StackInstructionNode)
  | 0, _, acc => .ok acc
  | fuel + 1, idx, acc =>
    match lookupNode store idx with
    | none => .ok acc
    | some n =>
      let nodeProgram := keys.getD n.ProgramIDIndex []
      let step : Except String (List StackInstructionNode × List StackInstructionNode) :=
        if nodeProgram = target then
          if n.Data.length < 16 then .error "slice bounds out of range"
          else
            let activeTag := hexEncode (n.Data.take 8)
            let activeTag2 := hexEncode ((n.Data.drop 8).take 8)
            let acc1 := if activeTag == routeTag then (acc.1 ++ [n], acc.2) else acc
            let acc2 := if activeTag == eventTag && activeTag2 == eventTag2 then (acc1.1, acc1.2 ++ [n]) else acc1
            .ok acc2
        else .ok acc
      match step with
      | .error e => .error e
      | .ok acc3 => n.Children.foldlM (fun a c => findNodesTraverse keys store target fuel c a) acc3

/-- Models `FindNodesByProgramID`: returns the (route, event) node lists in
preorder. -/
def FindNodesByProgramID (keys : List Pubkey) (store : NodeStore) (rootIdx : Int) (target : Pubkey) :
    Except String (List StackInstructionNode × List StackInstructionNode) :=
  findNodesTraverse keys store target (store.length + 1) rootIdx ([], [])

/-- Models `GetFullAccountKeys`: the message account keys, extended with the
address-table-loaded addresses when the message version is legacy (the
version condition is reproduced exactly as written in the source). -/
def GetFullAccountKeys (tx : TxModel) : List Pubkey :=
  let base := tx.message.accountKeys
  if tx.message.isLegacyVersion then
    match tx.meta with
    | some m => base ++ m.loadedAddresses.writable ++ m.loadedAddresses.readOnly
    | none => base
  else base

/-! ## Balance-change extractor (`GetBalanceChanges`, `formatTokenAmount`) -/

structure TokenInfo where
  Owner : String
  Mint : String
  Decimals : Nat
deriving DecidableEq, Repr

structure TokenChange where
  Amount : String
  Decimals : Nat
  UiAmountString : String
deriving DecidableEq, Repr

/-- Models `formatTokenAmount`: left-pad with zeros to at least
`decimals + 1` characters, split into integer/fractional parts, trim the
integer part's leading zeros, restore the sign. -/
def formatTokenAmount (amountStr : String) (decimals : Nat) : String :=
  if amountStr = "" then "0"
  else
    let signAndDigits : Bool × List Char :=
      match amountStr.data with
      | '-' :: rest => (true, rest)
      | cs => (false, cs)
    let negative := signAndDigits.1
    let cs0 := signAndDigits.2
    let requiredLen := decimals + 1
    let cs := if cs0.length < requiredLen then List.replicate (requiredLen - cs0.length) '0' ++ cs0 else cs0
    let integerPart0 := cs.take (cs.length - decimals)
    let fractionalPart := cs.drop (cs.length - decimals)
    let integerPart1 := integerPart0.dropWhile (fun c => c == '0')
    let integerPart := if integerPart1.isEmpty then ['0'] else integerPart1
    let result := String.mk (integerPart ++ '.' :: fractionalPart)
    if negative then "-" ++ result else result

/-- State threaded through steps 1–4 of `GetBalanceChanges`. -/
structure BalanceState where
  balanceMap : MapStr (MapStr UiTokenAmountM)
  tokenMap : MapStr TokenInfo
  preTokenBalMap : MapStr (MapStr UiTokenAmountM)
  accountAssetMap : List String
deriving Repr

/-- Models `GetBalanceChanges`.  Amount strings are parsed with
`big.Int.SetString`; in the source an unparsable pre-balance falls back to
zero via the nil check, and an unparsable post-balance would crash — the
amounts observed here come from the RPC node or from `big.Int.String` and
always parse, so the post side is modelled with the same zero fallback. -/
def GetBalanceChanges (tx : TxModel) (accountKeys : List Pubkey) :
    Except String (MapStr TokenInfo × MapStr (MapStr TokenChange)) :=
  match tx.meta with
  | none => .error "transaction meta is empty"
  | some meta =>
    -- 1. pre token balances
    let st0 : BalanceState := { balanceMap := [], tokenMap := [], preTokenBalMap := [], accountAssetMap := [] }
    let st1 := meta.preTokenBalances.foldl
      (fun (st : BalanceState) preTb =>
        let ownerAddr := pubkeyString preTb.owner
        let mintAddr := pubkeyString preTb.mint
        let pk := pubkeyString (accountKeys.getD preTb.accountIndex [])
        let tokenInfo : TokenInfo := { Owner := ownerAddr, Mint := mintAddr, Decimals := preTb.uiTokenAmount.decimals }
        let preAmt : UiTokenAmountM := { amount := preTb.uiTokenAmount.amount, decimals := preTb.uiTokenAmount.decimals, uiAmountString := "" }
        { st with tokenMap := mapInsert st.tokenMap pk tokenInfo,
                  preTokenBalMap := mapInsert2 st.preTokenBalMap ownerAddr mintAddr preAmt })
      st0
    -- 2. pre SOL balances
    let st2 := (meta.preBalances.enum).foldl
      (fun (st : BalanceState) p =>
        let ownerAddr := pubkeyString (accountKeys.getD p.1 [])
        let preAmt : UiTokenAmountM := { amount := toString p.2, decimals := 9, uiAmountString := "" }
        { st with preTokenBalMap := mapInsert2 st.preTokenBalMap ownerAddr "SOL" preAmt })
      st1
    -- 3. post token balances
    let st3 := meta.postTokenBalances.foldl
      (fun (st : BalanceState) postTb =>
        let ownerAddr := pubkeyString postTb.owner
        let mintAddr := pubkeyString postTb.mint
        let pk := pubkeyString (accountKeys.getD postTb.accountIndex [])
        let tokenInfo : TokenInfo := { Owner := ownerAddr, Mint := mintAddr, Decimals := postTb.uiTokenAmount.decimals }
        let postAmt : UiTokenAmountM := { amount := postTb.uiTokenAmount.amount, decimals := postTb.uiTokenAmount.decimals, uiAmountString := "" }
        { st with tokenMap := mapInsert st.tokenMap pk tokenInfo,
                  accountAssetMap := st.accountAssetMap ++ [ownerAddr ++ "_" ++ mintAddr],
                  balanceMap := mapInsert2 st.balanceMap ownerAddr mintAddr postAmt })
      st2
    -- 4. post SOL balances
    let st4 := (meta.postBalances.enum).foldl
      (fun (st : BalanceState) p =>
        let ownerAddr := pubkeyString (accountKeys.getD p.1 [])
        let postAmt : UiTokenAmountM := { amount := toString p.2, decimals := 9, uiAmountString := "" }
        { st with accountAssetMap := st.accountAssetMap ++ [ownerAddr ++ "_" ++ "SOL"],
                  balanceMap := mapInsert2 st.balanceMap ownerAddr "SOL" postAmt })
      st3
    -- 5. assets present pre-trade but absent post-trade go to zero
    let balanceMap5 := st4.preTokenBalMap.foldl
      (fun bm ownerAssets =>
        ownerAssets.2.foldl
          (fun bm asset =>
            let assetKey := ownerAssets.1 ++ "_" ++ asset.1
            let zeroAmt : UiTokenAmountM := { amount := "0", decimals := asset.2.decimals, uiAmountString := "" }
            if st4.accountAssetMap.contains assetKey then bm
            else mapInsert2 bm ownerAssets.1 asset.1 zeroAmt)
          bm)
      st4.balanceMap
    -- 6. deltas
    let unified := balanceMap5.foldl
      (fun um ownerAssets =>
        ownerAssets.2.foldl
          (fun um asset =>
            let ownerAddr := ownerAssets.1
            let assetID := asset.1
            let postTa := asset.2
            let preAndDec : Int × Nat :=
              match mapFind2 st4.preTokenBalMap ownerAddr assetID with
              | some preTa => ((parseDecInt preTa.amount).getD 0, preTa.decimals)
              | none => (0, postTa.decimals)
            let preAmount := preAndDec.1
            let decimals := preAndDec.2
            let postAmount := (parseDecInt postTa.amount).getD 0
            let changeAmount := postAmount - preAmount
            let absoluteChange := changeAmount.natAbs
            let uiAmountString := formatTokenAmount (toString absoluteChange) decimals
            let change : TokenChange := { Amount := toString absoluteChange, Decimals := decimals, UiAmountString := uiAmountString }
            mapInsert2 um ownerAddr assetID change)
          um)
      ([] : MapStr (MapStr TokenChange))
    .ok (st4.tokenMap, unified)

/-! ## Order assembler (`fetchJupiterOrders`) -/

structure OrderTokenInfo where
  Mint : String
  UiTokenAmount : UiTokenAmountM
deriving DecidableEq, Repr

structure Order where
  Signature : String
  Slot : Nat
  BlockTime : Int
  BuyToken : OrderTokenInfo
  SellToken : OrderTokenInfo
deriving DecidableEq, Repr

structure JupiterSwapEventData where
  Amm : Pubkey
  InputMint : Pubkey
  InputAmount : Nat
  OutputMint : Pubkey
  OutputAmount : Nat
deriving DecidableEq, Repr

/-- Little-endian unsigned 64-bit read. -/
def leU64 (bs : List Nat) : Nat := bs.foldr (fun b acc => acc * 256 + b) 0

/-- Models `borsh.Deserialize(&JupiterSwapEventData, payload)`: two 32-byte
public keys and two little-endian u64 fields in declaration order; an
error when the payload is too short. -/
def borshDeserializeSwapEvent (bs : List Nat) : Except String JupiterSwapEventData :=
  if bs.length < 112 then .error "unexpected end of data when deserializing swap event"
  else .ok
    { Amm := bs.take 32
      InputMint := (bs.drop 32).take 32
      InputAmount := leU64 ((bs.drop 64).take 8)
      OutputMint := (bs.drop 72).take 32
      OutputAmount := leU64 ((bs.drop 104).take 8) }

/-- Event loop of `fetchJupiterOrders`: the first event's decoded input
mint becomes the sell mint, the last event's decoded output mint becomes
the buy mint (a single event is decoded twice, once per branch, as in the
source); both start as the empty string. -/
def deriveEventMints (len : Nat) : Nat → String → String → List StackInstructionNode →
    Except String (String × String)
  | _, sellTokenMint, buyTokenMint, [] => .ok (sellTokenMint, buyTokenMint)
  | i, sellTokenMint, buyTokenMint, node :: rest =>
    match (if i == 0 then (borshDeserializeSwapEvent (node.Data.drop 16)).map (fun d => pubkeyString d.InputMint)
           else .ok sellTokenMint) with
    | .error e => .error e
    | .ok s2 =>
      match (if i == len - 1 then (borshDeserializeSwapEvent (node.Data.drop 16)).map (fun d => pubkeyString d.OutputMint)
             else .ok buyTokenMint) with
      | .error e => .error e
      | .ok b2 => deriveEventMints len (i + 1) s2 b2 rest

/-- The wrapped-SOL pseudo mint normalized to the "SOL" sentinel. -/
def wrappedSolMint : String := "So11111111111111111111111111111111111111112"

/-- Outcome of the `fetchJupiterOrders` loop body for one transaction. -/
inductive TxOutcome where
  | skip
  | keep (o : Order)
  | fatal (e : String)
  | crash (m : String)
deriving DecidableEq, Repr

/-- Loop body of `fetchJupiterOrders` for one transaction, mirroring the
source's control flow: tree/account failures and zero-or-ambiguous route
counts continue with the next transaction (`skip`); a balance-extraction
or event-decode error returns from the whole function (`fatal`); reading a
field of a missing balance-delta entry is a Go nil-pointer panic
(`crash`).  In the `buyTokenMint == mint` branch the source looks up the
sell-side delta with key `buyTokenMint` (line 1004), reproduced here
verbatim. -/
def processOneTx (jupiterPID : Pubkey) (user mint : String) (tx : Transaction) : TxOutcome :=
  let fullAccountKeys := GetFullAccountKeys tx.RawTx
  match ParseInstructionTreeByStackHeight tx.RawTx with
  | .error _ => .skip
  | .ok (store, rootIdx) =>
    match FindNodesByProgramID fullAccountKeys store rootIdx jupiterPID with
    | .error m => .crash m
    | .ok (route, event) =>
      if route.length > 1 then .skip
      else if route.length == 0 then .skip
      else
        match GetBalanceChanges tx.RawTx fullAccountKeys with
        | .error e => .fatal e
        | .ok (_, tokenChangeMap) =>
          match deriveEventMints event.length 0 "" "" event with
          | .error e => .fatal e
          | .ok (sellTokenMint0, buyTokenMint0) =>
            let buyTokenMint := if buyTokenMint0 == wrappedSolMint then "SOL" else buyTokenMint0
            let sellTokenMint := if sellTokenMint0 == wrappedSolMint then "SOL" else sellTokenMint0
            if sellTokenMint == mint then
              match mapFind2 tokenChangeMap user mint with
              | none => .crash "nil pointer dereference"
              | some sellTokenChange =>
                match mapFind2 tokenChangeMap user buyTokenMint with
                | none => .crash "nil pointer dereference"
                | some buyTokenChange =>
                  .keep
                    { Signature := tx.Signature, Slot := tx.Slot, BlockTime := tx.BlockTime
                      SellToken := { Mint := sellTokenMint, UiTokenAmount :=
                        { amount := sellTokenChange.Amount, decimals := sellTokenChange.Decimals,
                          uiAmountString := sellTokenChange.UiAmountString } }
                      BuyToken := { Mint := buyTokenMint, UiTokenAmount :=
                        { amount := buyTokenChange.Amount, decimals := buyTokenChange.Decimals,
                          uiAmountString := buyTokenChange.UiAmountString } } }
            else if buyTokenMint == mint then
              match mapFind2 tokenChangeMap user mint with
              | none => .crash "nil pointer dereference"
              | some buyTokenChange =>
                match mapFind2 tokenChangeMap user buyTokenMint with
                | none => .crash "nil pointer dereference"
                | some sellTokenChange =>
                  .keep
                    { Signature := tx.Signature, Slot := tx.Slot, BlockTime := tx.BlockTime
                      SellToken := { Mint := sellTokenMint, UiTokenAmount :=
                        { amount := sellTokenChange.Amount, decimals := sellTokenChange.Decimals,
                          uiAmountString := sellTokenChange.UiAmountString } }
                      BuyToken := { Mint := buyTokenMint, UiTokenAmount :=
                        { amount := buyTokenChange.Amount, decimals := buyTokenChange.Decimals,
                          uiAmountString := buyTokenChange.UiAmountString } } }
            else .skip

/-- Transaction loop of `fetchJupiterOrders`. -/
def fetchOrdersLoop (jupiterPID : Pubkey) (user mint : String) :
    List Transaction → List Order → GoResult (List Order)
  | [], orders => .ok orders
  | tx :: rest, orders =>
    match processOneTx jupiterPID user mint tx with
    | .skip => fetchOrdersLoop jupiterPID user mint rest orders
    | .keep o => fetchOrdersLoop jupiterPID user mint rest (orders ++ [o])
    | .fatal e => .fail e
    | .crash m => .crash m

/-- Models `fetchJupiterOrders`. -/
def fetchJupiterOrders (jupiterPID : Pubkey) (txList : List Transaction) (user mint : String) :
    GoResult (List Order) :=
  if txList.length = 0 then .ok [] else fetchOrdersLoop jupiterPID user mint txList []

/-! ## Position/PnL accountant (`calculatePnL`, `calculatePositionPnL`,
`parseTokenAmount`, `truncateToDecimals`).  The source computes over
`float64`; the arithmetic is modelled exactly over `ℚ`. -/

/-- Models the source's `Position`. -/
structure Position where
  TotalAmount : ℚ
  TotalCostUSD : ℚ
  RealizedPnL : ℚ
  TotalInvestment : ℚ
  TotalQuantity : ℚ
  AverageCost : ℚ
  Transactions : List Order
  IsClosed : Bool
deriving DecidableEq, Repr

/-- Models the source's `PnLResult`. -/
structure PnLResult where
  AverageCost : ℚ
  ProfitLossPercentage : String
  ProfitLossValue : ℚ
  UnrealizedProfitLossValue : ℚ
  IsClosed : Bool
deriving DecidableEq, Repr

/-- Price oracle boundary (the OKX client): historical close price of a
mint at a block time, and current close price of a mint.  Modelled as
total functions; an oracle fetch failure aborts the computation in the
source and is orthogonal to the claims settled here. -/
structure PriceOracle where
  historical : String → Int → ℚ
  current : String → ℚ

/-- Models `getTokenUSDValue`: (amount × historical price, price). -/
def getTokenUSDValue (oracle : PriceOracle) (order : Order) (isBuy : Bool) (amount : ℚ) : ℚ × ℚ :=
  let tokenMint := if isBuy then order.BuyToken.Mint else order.SellToken.Mint
  let price := oracle.historical tokenMint order.BlockTime
  (amount * price, price)

/-- Models `getCurrentTokenPrice`. -/
def getCurrentTokenPrice (oracle : PriceOracle) (mint : String) : ℚ :=
  oracle.current mint

/-- Models `parseTokenAmount`: the raw amount string is parsed with
`strconv.ParseInt(_, 10, 64)` and scaled by `10^-decimals`. -/
def parseTokenAmount (order : Order) (isBuy : Bool) : Except String ℚ :=
  let tokenAmount := if isBuy then order.BuyToken.UiTokenAmount else order.SellToken.UiTokenAmount
  match parseInt64 tokenAmount.amount with
  | .error e => .error ("failed to parse amount: " ++ e)
  | .ok amountInt => .ok ((amountInt : ℚ) / (10 : ℚ) ^ tokenAmount.decimals)

/-- Truncation toward zero to an integer (`math.Trunc`): the floor for
nonnegative values, `-⌊-x⌋` (the ceiling) for negative ones.  Uses the
executable `Rat.floor` so that concrete runs evaluate in the kernel. -/
def goTruncZ (x : ℚ) : ℤ := if x < 0 then -(Rat.floor (-x)) else Rat.floor x

/-- Truncation toward zero, as a rational (`math.Trunc`). -/
def goTrunc (x : ℚ) : ℚ := (goTruncZ x : ℚ)

/-- Models `truncateToDecimals`: truncate (never round) toward zero at
`decimals` fractional digits. -/
def truncateToDecimals (value : ℚ) (decimals : Int) : ℚ :=
  if decimals ≤ 0 then goTrunc value
  else
    let shift : ℚ := (10 : ℚ) ^ decimals.toNat
    goTrunc (value * shift) / shift

/-- Two-digit zero-padded decimal string. -/
def twoDigitString (n : Nat) : String :=
  if n < 10 then "0" ++ toString n else toString n

/-- Models Go `fmt.Sprintf("%.2f", x)`: format rounded (to nearest) to two
fractional digits.  (Go rounds the exact binary double; on non-tie values,
as used here, that agrees with rounding the rational to the nearest
hundredth.) -/
def goFormat2f (x : ℚ) : String :=
  let scaled : ℤ := round (x * 100)
  let str := toString (scaled.natAbs / 100) ++ "." ++ twoDigitString (scaled.natAbs % 100)
  if scaled < 0 then "-" ++ str else str

/-- Percentage string as the source produces it:
`fmt.Sprintf("%.2f%%", pnlPercentage)`. -/
def sprintfPercent2 (x : ℚ) : String := goFormat2f x ++ "%"

/-- Modelled from the spec: the spec's claimed percentage format, truncated
(not rounded) to two places with a trailing percent sign; stated only to be
compared against the source's rounding formatter. -/
def percentStringTruncated (x : ℚ) : String :=
  let scaled : ℤ := goTruncZ (x * 100)
  let str := toString (scaled.natAbs / 100) ++ "." ++ twoDigitString (scaled.natAbs % 100)
  (if scaled < 0 then "-" ++ str else str) ++ "%"

/-- Models `calculatePositionPnL` (the price fetch is the total oracle, so
the source's only error path does not arise). -/
def calculatePositionPnL (oracle : PriceOracle) (positions : List Position) (targetMint : String) :
    List PnLResult :=
  let currentPrice := getCurrentTokenPrice oracle targetMint
  positions.map (fun pos =>
    let averageCost := truncateToDecimals pos.AverageCost 9
    let pnlPercentage : ℚ :=
      if pos.TotalInvestment > 0 then pos.RealizedPnL / pos.TotalInvestment * 100 else 0
    let profitLossValue := truncateToDecimals pos.RealizedPnL 10
    let unrealizedProfitLossValue : ℚ :=
      if !pos.IsClosed then truncateToDecimals (pos.TotalAmount * currentPrice - pos.TotalCostUSD) 2
      else 0
    { AverageCost := averageCost
      ProfitLossPercentage := sprintfPercent2 pnlPercentage
      ProfitLossValue := profitLossValue
      UnrealizedProfitLossValue := unrealizedProfitLossValue
      IsClosed := pos.IsClosed })

/-- Accumulator of the `calculatePnL` loop: closed positions emitted so
far and the currently open position, if any. -/
structure PnlAcc where
  positions : List Position
  currentPosition : Option Position
deriving DecidableEq, Repr

/-- Fresh position created on a buy with no open position. -/
def freshPosition : Position :=
  { TotalAmount := 0, TotalCostUSD := 0, RealizedPnL := 0, TotalInvestment := 0,
    TotalQuantity := 0, AverageCost := 0, Transactions := [], IsClosed := false }

/-- Loop body of `calculatePnL` for one order, mirroring the source's
three sequential `if` blocks (initialize on first buy; buy update; sell
update with close-on-nonpositive-quantity). -/
def processOrder (oracle : PriceOracle) (targetMint : String) (acc : PnlAcc) (order : Order) :
    Except String PnlAcc :=
  let isBuy := order.BuyToken.Mint == targetMint
  let isSell := order.SellToken.Mint == targetMint
  if !isBuy && !isSell then .ok acc
  else
    match parseTokenAmount order isBuy with
    | .error e => .error e
    | .ok amount =>
      let usdValue := (getTokenUSDValue oracle order isBuy amount).1
      let acc1 :=
        if acc.currentPosition.isNone && isBuy then { acc with currentPosition := some freshPosition }
        else acc
      let acc2 :=
        if isBuy then
          match acc1.currentPosition with
          | none => acc1
          | some cp =>
            let cp1 :=
              { cp with TotalAmount := cp.TotalAmount + amount,
                        TotalCostUSD := cp.TotalCostUSD + usdValue,
                        TotalInvestment := cp.TotalInvestment + usdValue,
                        TotalQuantity := cp.TotalQuantity + amount }
            let cp2 :=
              { cp1 with AverageCost := cp1.TotalInvestment / cp1.TotalQuantity,
                         Transactions := cp1.Transactions ++ [order] }
            { acc1 with currentPosition := some cp2 }
        else acc1
      let acc3 :=
        if isSell then
          match acc2.currentPosition with
          | none => acc2
          | some cp =>
            let averageCost := cp.AverageCost
            let realized := usdValue - amount * averageCost
            let cp1 :=
              { cp with RealizedPnL := cp.RealizedPnL + realized,
                        TotalAmount := cp.TotalAmount - amount,
                        TotalCostUSD := cp.TotalCostUSD - amount * averageCost,
                        Transactions := cp.Transactions ++ [order] }
            if cp1.TotalAmount ≤ 0 then
              { positions := acc2.positions ++ [{ cp1 with IsClosed := true }], currentPosition := none }
            else { acc2 with currentPosition := some cp1 }
        else acc2
      .ok acc3

/-- Order loop of `calculatePnL`. -/
def pnlLoop (oracle : PriceOracle) (targetMint : String) : PnlAcc → List Order → Except String PnlAcc
  | acc, [] => .ok acc
  | acc, o :: rest =>
    match processOrder oracle targetMint acc o with
    | .error e => .error e
    | .ok acc2 => pnlLoop oracle targetMint acc2 rest

/-- Models `calculatePnL`: run the ledger over the time-ordered orders,
emit the still-open position at end of stream, then compute the per-
position results. -/
def calculatePnL (oracle : PriceOracle) (orders : List Order) (targetMint : String) :
    Except String (List PnLResult) :=
  match pnlLoop oracle targetMint { positions := [], currentPosition := none } orders with
  | .error e => .error e
  | .ok acc =>
    let positions :=
      match acc.currentPosition with
      | some cp => acc.positions ++ [cp]
      | none => acc.positions
    .ok (calculatePositionPnL oracle positions targetMint)

/-! ## Concurrent fetch collector (`concurrentGetTransactions`) -/

/-- One message sent on the result channel by a fetch worker: either a
fetched transaction (with `err = none`) or an error (with `tx = none`). -/
structure FetchArrival where
  index : Nat
  tx : Option Transaction
  err : Option String
deriving DecidableEq, Repr

/-- The hard-coded string of the leftover debug comparison at line 320 of
the source. -/
def debugSignature : String :=
  "487tDZsjDh7jZ3DzAfZXZE699Pt22DsRRMZ7pRqHAHNaxkcc41rBjnsoTZQYoV983XnkR5rxn5tDdNWTL5V41AVu"

/-- Result-collection loop of `concurrentGetTransactions` over the channel
arrivals (one per signature, in any completion order).  The source first
evaluates `res.tx.Signature == debugSignature`; on the error path `res.tx`
is nil, so that field read is a nil-pointer dereference (a panic), before
the `res.err` check is ever reached. -/
def collectResults : List FetchArrival → List (Option Transaction) → Option String →
    GoResult (List (Option Transaction))
  | [], results, firstErr =>
    match firstErr with
    | some e => .fail e
    | none => .ok results
  | res :: rest, results, firstErr =>
    match res.tx with
    | none => .crash "runtime error: invalid memory address or nil pointer dereference"
    | some t =>
      let _ := t.Signature == debugSignature
      let firstErr2 := if res.err.isSome && firstErr.isNone then res.err else firstErr
      let results2 := results.set res.index (some t)
      collectResults rest results2 firstErr2

/-- Models `concurrentGetTransactions` for a batch of `n` signatures whose
workers produced the given arrivals: the waitgroup/channel machinery
delivers each worker's tagged result exactly once, in an arbitrary order,
into the sequential collection loop. -/
def concurrentGetTransactions (n : Nat) (arrivals : List FetchArrival) :
    GoResult (List (Option Transaction)) :=
  collectResults arrivals (List.replicate n none) none

/-! ## Concrete instances used by witnesses and counterexamples -/

/-- Initial accumulator of the `calculatePnL` loop. -/
def pnlAccInit : PnlAcc := { positions := [], currentPosition := none }

/-- Oracle: target token worth 1 USD at time 1, 1.5 USD at time 2. -/
def oracleC7 : PriceOracle :=
  { historical := fun _ t => if t = 1 then 1 else 3/2
    current := fun _ => 2 }

/-- Buy 10 target units against 10 USDC at time 1 (unit price 1 USD). -/
def obuyC7 : Order :=
  { Signature := "buy1"
    Slot := 1
    BlockTime := 1
    BuyToken := { Mint := "TGT", UiTokenAmount := { amount := "10000000", decimals := 6, uiAmountString := "" } }
    SellToken := { Mint := "USD", UiTokenAmount := { amount := "10", decimals := 0, uiAmountString := "" } } }

/-- Sell the full 10 target units at time 2 (unit price 1.5 USD). -/
def osellC7 : Order :=
  { Signature := "sell1"
    Slot := 2
    BlockTime := 2
    BuyToken := { Mint := "USD", UiTokenAmount := { amount := "15", decimals := 0, uiAmountString := "" } }
    SellToken := { Mint := "TGT", UiTokenAmount := { amount := "10000000", decimals := 6, uiAmountString := "" } } }

/-- Result of the closed buy-10-at-1 / sell-10-at-1.5 scenario. -/
def resC7 : PnLResult :=
  { AverageCost := 1, ProfitLossPercentage := "50.00%", ProfitLossValue := 5,
    UnrealizedProfitLossValue := 0, IsClosed := true }

/-- Oracle: target token worth 2 USD at time 1, 1 USD at time 2. -/
def oracleC8 : PriceOracle :=
  { historical := fun _ t => if t = 1 then 2 else 1
    current := fun _ => 1 }

/-- Buy 1 target unit at time 1 (unit price 2 USD). -/
def o1C8 : Order :=
  { Signature := "buyA"
    Slot := 1
    BlockTime := 1
    BuyToken := { Mint := "TGT", UiTokenAmount := { amount := "1", decimals := 0, uiAmountString := "" } }
    SellToken := { Mint := "USD", UiTokenAmount := { amount := "2", decimals := 0, uiAmountString := "" } } }

/-- Buy 1 more target unit at time 2 (unit price 1 USD, below average). -/
def o2C8 : Order :=
  { Signature := "buyB"
    Slot := 2
    BlockTime := 2
    BuyToken := { Mint := "TGT", UiTokenAmount := { amount := "1", decimals := 0, uiAmountString := "" } }
    SellToken := { Mint := "USD", UiTokenAmount := { amount := "1", decimals := 0, uiAmountString := "" } } }

/-- Sell order for the target mint arriving while no position is open. -/
def osellC9 : Order :=
  { Signature := "sellFlat"
    Slot := 3
    BlockTime := 3
    BuyToken := { Mint := "USD", UiTokenAmount := { amount := "7", decimals := 0, uiAmountString := "" } }
    SellToken := { Mint := "TGT", UiTokenAmount := { amount := "7", decimals := 0, uiAmountString := "" } } }

/-- Buy order whose raw amount is 2^63, one past the largest int64. -/
def oBigC10 : Order :=
  { Signature := "big"
    Slot := 4
    BlockTime := 4
    BuyToken := { Mint := "TGT", UiTokenAmount := { amount := "9223372036854775808", decimals := 6, uiAmountString := "" } }
    SellToken := { Mint := "USD", UiTokenAmount := { amount := "1", decimals := 0, uiAmountString := "" } } }

/-- Oracle: target token worth 100 USD at time 1, 101.999 USD at time 2. -/
def oracleC4 : PriceOracle :=
  { historical := fun _ t => if t = 1 then 100 else 101999/1000
    current := fun _ => 1 }

/-- Buy 1 target unit at time 1 (unit price 100 USD). -/
def obuyC4 : Order :=
  { Signature := "buyP"
    Slot := 1
    BlockTime := 1
    BuyToken := { Mint := "TGT", UiTokenAmount := { amount := "1", decimals := 0, uiAmountString := "" } }
    SellToken := { Mint := "USD", UiTokenAmount := { amount := "100", decimals := 0, uiAmountString := "" } } }

/-- Sell the unit at time 2 (unit price 101.999 USD, realized PnL 1.999). -/
def osellC4 : Order :=
  { Signature := "sellP"
    Slot := 2
    BlockTime := 2
    BuyToken := { Mint := "USD", UiTokenAmount := { amount := "101", decimals := 0, uiAmountString := "" } }
    SellToken := { Mint := "TGT", UiTokenAmount := { amount := "1", decimals := 0, uiAmountString := "" } } }

/-- An open position holding 2 units bought for 4 USD (average cost 2). -/
def posW : Position :=
  { TotalAmount := 2, TotalCostUSD := 4, RealizedPnL := 0, TotalInvestment := 4,
    TotalQuantity := 2, AverageCost := 2, Transactions := [], IsClosed := false }

/-- Accumulator with `posW` as the open position. -/
def accW : PnlAcc := { positions := [], currentPosition := some posW }

/-- Result row for `posW` priced by `oracleC8` (open position, average
cost 2, no realized PnL, unrealized −2 at current price 1). -/
def resC4W : PnLResult :=
  { AverageCost := 2, ProfitLossPercentage := "0.00%", ProfitLossValue := 0,
    UnrealizedProfitLossValue := -2, IsClosed := false }

/-- List of `n` zero bytes. -/
def zeroBytes (n : Nat) : List Nat := List.replicate n 0

def userKeyC1 : Pubkey := zeroBytes 31 ++ [1]
def jupKeyC1 : Pubkey := zeroBytes 31 ++ [2]
def tokAccXC1 : Pubkey := zeroBytes 31 ++ [3]
def tokAccMC1 : Pubkey := zeroBytes 31 ++ [4]
def mintXC1 : Pubkey := zeroBytes 31 ++ [5]
def mintMC1 : Pubkey := zeroBytes 31 ++ [6]

/-- Route instruction data: route discriminator plus 8 padding bytes. -/
def routeDataC1 : List Nat := [0xe5, 0x17, 0xcb, 0x97, 0x7a, 0xe3, 0xad, 0x2a] ++ zeroBytes 8

/-- Swap-event instruction data: the two event discriminators followed by
the borsh payload (amm, input mint X, input amount 100, output mint M,
output amount 5). -/
def eventDataC1 : List Nat :=
  [0xe4, 0x45, 0xa5, 0x2e, 0x51, 0xcb, 0x9a, 0x1d, 0x40, 0xc6, 0xcd, 0xe8, 0x26, 0x08, 0x71, 0xe2]
    ++ (zeroBytes 32 ++ mintXC1 ++ [100, 0, 0, 0, 0, 0, 0, 0] ++ mintMC1 ++ [5, 0, 0, 0, 0, 0, 0, 0])

/-- Swap-event instruction data with a truncated payload (decode fails). -/
def eventDataBad : List Nat :=
  [0xe4, 0x45, 0xa5, 0x2e, 0x51, 0xcb, 0x9a, 0x1d, 0x40, 0xc6, 0xcd, 0xe8, 0x26, 0x08, 0x71, 0xe2]
    ++ zeroBytes 50

/-- A Jupiter swap of 100 raw units of mint X into 5 raw units of mint M:
the wallet's token account for X goes 100 → 0 and for M goes 0 → 5. -/
def txC1raw : TxModel :=
  { message :=
      { accountKeys := [userKeyC1, jupKeyC1, tokAccXC1, tokAccMC1]
        instructions := [{ programIDIndex := 1, data := routeDataC1, accounts := [] }]
        isLegacyVersion := true }
    meta := some
      { innerInstructions := [{ index := 0, instructions := [{ programIDIndex := 1, data := eventDataC1, accounts := [] }] }]
        preBalances := [10, 10, 10, 10]
        postBalances := [10, 10, 10, 10]
        preTokenBalances :=
          [ { accountIndex := 2, owner := userKeyC1, mint := mintXC1, uiTokenAmount := { amount := "100", decimals := 6, uiAmountString := "" } },
            { accountIndex := 3, owner := userKeyC1, mint := mintMC1, uiTokenAmount := { amount := "0", decimals := 6, uiAmountString := "" } } ]
        postTokenBalances :=
          [ { accountIndex := 2, owner := userKeyC1, mint := mintXC1, uiTokenAmount := { amount := "0", decimals := 6, uiAmountString := "" } },
            { accountIndex := 3, owner := userKeyC1, mint := mintMC1, uiTokenAmount := { amount := "5", decimals := 6, uiAmountString := "" } } ]
        loadedAddresses := { writable := [], readOnly := [] } } }

def txC1 : Transaction :=
  { Signature := "sigC1", Slot := 7, BlockTime := 1000, RawTx := txC1raw }

/-- Same swap transaction but with an undecodable swap-event payload. -/
def txBadRaw : TxModel :=
  { message := txC1raw.message
    meta := some
      { innerInstructions := [{ index := 0, instructions := [{ programIDIndex := 1, data := eventDataBad, accounts := [] }] }]
        preBalances := [10, 10, 10, 10]
        postBalances := [10, 10, 10, 10]
        preTokenBalances :=
          [ { accountIndex := 2, owner := userKeyC1, mint := mintXC1, uiTokenAmount := { amount := "100", decimals := 6, uiAmountString := "" } },
            { accountIndex := 3, owner := userKeyC1, mint := mintMC1, uiTokenAmount := { amount := "0", decimals := 6, uiAmountString := "" } } ]
        postTokenBalances :=
          [ { accountIndex := 2, owner := userKeyC1, mint := mintXC1, uiTokenAmount := { amount := "0", decimals := 6, uiAmountString := "" } },
            { accountIndex := 3, owner := userKeyC1, mint := mintMC1, uiTokenAmount := { amount := "5", decimals := 6, uiAmountString := "" } } ]
        loadedAddresses := { writable := [], readOnly := [] } } }

def txBad : Transaction :=
  { Signature := "sigBad", Slot := 6, BlockTime := 900, RawTx := txBadRaw }

/-- A successfully fetched transaction for the collector model. -/
def txArrived : Transaction :=
  { Signature := "sigA", Slot := 1, BlockTime := 5, RawTx := txC1raw }

/-- The order assembled from `txC1` (both sides carry the wallet's delta of
the target mint, "5", because of the sell-side lookup bug). -/
def ordC1 : Order :=
  { Signature := "sigC1"
    Slot := 7
    BlockTime := 1000
    BuyToken := { Mint := pubkeyString mintMC1,
                  UiTokenAmount := { amount := "5", decimals := 6, uiAmountString := "0.000005" } }
    SellToken := { Mint := pubkeyString mintXC1,
                   UiTokenAmount := { amount := "5", decimals := 6, uiAmountString := "0.000005" } } }

/-- True when the `fetchJupiterOrders` loop proceeds past a transaction
(skipping it or keeping its order) rather than aborting. -/
def isProceeding : TxOutcome → Bool
  | .skip => true
  | .keep _ => true
  | .fatal _ => false
  | .crash _ => false

/-- A transaction with two top-level instructions and one inner group
attached to the first, exercising the virtual-root branch of the tree
builder. -/
def txC5w : TxModel :=
  { message :=
      { accountKeys := []
        instructions := [{ programIDIndex := 1, data := [0], accounts := [] },
                         { programIDIndex := 2, data := [1], accounts := [] }]
        isLegacyVersion := true }
    meta := some
      { innerInstructions := [{ index := 0, instructions := [{ programIDIndex := 3, data := [2], accounts := [] }] }]
        preBalances := []
        postBalances := []
        preTokenBalances := []
        postTokenBalances := []
        loadedAddresses := { writable := [], readOnly := [] } } }

/-- The flattened instruction list of `txC5w`. -/
def accC5w : List IndexedInstruction :=
  [ { Index := 0, ParentTopIndex := -1, StackHeight := 0, ProgramIDIndex := 1, Data := [0], Accounts := [] },
    { Index := 1, ParentTopIndex := -1, StackHeight := 0, ProgramIDIndex := 2, Data := [1], Accounts := [] },
    { Index := 2, ParentTopIndex := 0, StackHeight := 1, ProgramIDIndex := 3, Data := [2], Accounts := [] } ]

/-! ## Specification predicates for the instruction tree builder -/

/-- The indices `0, 1, …, N-1` as integers (the top-level node indices). -/
def rangeInt (N : Nat) : List Int := (List.range N).map Int.ofNat

/-- Shape of the instruction list consumed by the node-construction loop:
consecutive global indices starting at `bound`; each entry is either a
top-level instruction (no parent, height 0, its index joining the root
list) or an inner instruction anchored at an already-registered root. -/
inductive GoodRemaining : List Int → Int → List IndexedInstruction → Prop where
  | nil : ∀ roots bound, GoodRemaining roots bound []
  | top : ∀ roots bound instr rest,
      instr.Index = bound → instr.ParentTopIndex = -1 → instr.StackHeight = 0 →
      GoodRemaining (roots ++ [bound]) (bound + 1) rest →
      GoodRemaining roots bound (instr :: rest)
  | inner : ∀ roots bound instr rest,
      instr.Index = bound → instr.ParentTopIndex ∈ roots → instr.StackHeight = 1 →
      GoodRemaining roots (bound + 1) rest →
      GoodRemaining roots bound (instr :: rest)

/-- Root indices contributed by an instruction list, in processing order. -/
def topsOf : List IndexedInstruction → List Int
  | [] => []
  | i :: rest => if i.ParentTopIndex == -1 then i.Index :: topsOf rest else topsOf rest

/-- Invariant of the node store during `buildNodes`: all keys lie in
`[0, bound)`; every registered root resolves to a height-0 node with no
parent; and every stored node is either such a top node or a height-1
child of a registered root. -/
def StoreInv (roots : List Int) (bound : Int) (store : NodeStore) : Prop :=
  0 ≤ bound ∧
  (∀ k ∈ storeKeys store, 0 ≤ k ∧ k < bound) ∧
  (∀ r ∈ roots, ∃ n, lookupNode store r = some n ∧
      n.StackHeight = 0 ∧ n.Parent = none ∧ n.Index = r) ∧
  (∀ i n, lookupNode store i = some n → n.Index = i ∧
      ((n.StackHeight = 0 ∧ n.Parent = none) ∨
       (∃ t, t ∈ roots ∧ n.StackHeight = 1 ∧ n.Parent = some t)))

/-- Pointwise shape of the list built by `getAllInstructionsWithStackHeight`
for a transaction with `N` top-level instructions: entry `k` carries global
index `k`; the first `N` entries are top-level (no parent, height 0) and
all later entries are inner instructions (parent among `0..N-1`, height 1). -/
def AccInv (N : Nat) (acc : List IndexedInstruction) : Prop :=
  N ≤ acc.length ∧
  ∀ k x, acc.get? k = some x →
    x.Index = (k : Int) ∧
    (k < N → x.ParentTopIndex = -1 ∧ x.StackHeight = 0) ∧
    (N ≤ k → x.ParentTopIndex ∈ rangeInt N ∧ x.StackHeight = 1)

/-! # Theorems -/

/-! ## Sorting (claim C6) -/

theorem txLess_iff (a b : Transaction) :
    txLess a b = true ↔
      (a.BlockTime < b.BlockTime ∨ (a.BlockTime = b.BlockTime ∧ a.Slot < b.Slot)) := by
  simp [txLess, Bool.or_eq_true, Bool.and_eq_true, beq_iff_eq, decide_eq_true_eq]

theorem txLe_of_txLess {a b : Transaction} (h : txLess a b = true) : txLe a b := by
  rw [txLess_iff] at h
  unfold txLe
  omega

theorem txLe_of_not_txLess {a b : Transaction} (h : txLess a b = false) : txLe b a := by
  rw [← Bool.not_eq_true, txLess_iff] at h
  unfold txLe
  omega

theorem txLe_trans {a b c : Transaction} (h1 : txLe a b) (h2 : txLe b c) : txLe a c := by
  unfold txLe at *
  omega

theorem sortInner_perm (x : Transaction) (xs : List Transaction) :
    List.Perm ((sortInner x xs).1 :: (sortInner x xs).2) (x :: xs) := by
  induction xs generalizing x with
  | nil => simp [sortInner]
  | cons y ys ih =>
    unfold sortInner
    by_cases h : txLess y x = true
    · simp only [h, if_true]
      exact (List.Perm.swap x _ _).trans ((ih y).cons x)
    · simp only [h, if_false]
      exact ((List.Perm.swap y _ _).trans (((ih x).cons y))).trans (List.Perm.swap x y ys)

theorem sortInner_le (x : Transaction) (xs : List Transaction) :
    txLe (sortInner x xs).1 x ∧ ∀ z ∈ (sortInner x xs).2, txLe (sortInner x xs).1 z := by
  induction xs generalizing x with
  | nil => exact ⟨Or.inr ⟨rfl, le_rfl⟩, by simp [sortInner]⟩
  | cons y ys ih =>
    unfold sortInner
    by_cases h : txLess y x = true
    · simp only [h, if_true]
      refine ⟨txLe_trans (ih y).1 (txLe_of_txLess h), ?_⟩
      intro z hz
      rcases List.mem_cons.mp hz with rfl | hz
      · exact txLe_trans (ih y).1 (txLe_of_txLess h)
      · exact (ih y).2 z hz
    · simp only [h, if_false]
      rw [Bool.not_eq_true] at h
      refine ⟨(ih x).1, ?_⟩
      intro z hz
      rcases List.mem_cons.mp hz with rfl | hz
      · exact txLe_trans (ih x).1 (txLe_of_not_txLess h)
      · exact (ih x).2 z hz

theorem sortInner_length (x : Transaction) (xs : List Transaction) :
    (sortInner x xs).2.length = xs.length := by
  induction xs generalizing x with
  | nil => rfl
  | cons y ys ih =>
    unfold sortInner
    by_cases h : txLess y x = true <;> simp [h, ih]

theorem sortOuter_perm : ∀ (fuel : Nat) (l : List Transaction), l.length ≤ fuel →
    List.Perm (sortOuter fuel l) l := by
  intro fuel
  induction fuel with
  | zero => intro l _; exact List.Perm.refl _
  | succ fuel ih =>
    intro l hl
    match l with
    | [] => exact List.Perm.refl _
    | x :: xs =>
      have hlen : (sortInner x xs).2.length ≤ fuel := by
        rw [sortInner_length]
        simpa using Nat.le_of_succ_le_succ hl
      exact ((ih _ hlen).cons (sortInner x xs).1).trans (sortInner_perm x xs)

theorem sortOuter_sorted : ∀ (fuel : Nat) (l : List Transaction), l.length ≤ fuel →
    List.Pairwise txLe (sortOuter fuel l) := by
  intro fuel
  induction fuel with
  | zero =>
    intro l hl
    have : l = [] := List.eq_nil_of_length_eq_zero (Nat.le_zero.mp hl)
    subst this
    simp [sortOuter]
  | succ fuel ih =>
    intro l hl
    match l with
    | [] => simp [sortOuter]
    | x :: xs =>
      have hlen : (sortInner x xs).2.length ≤ fuel := by
        rw [sortInner_length]
        simpa using Nat.le_of_succ_le_succ hl
      refine List.Pairwise.cons ?_ (ih _ hlen)
      intro z hz
      exact (sortInner_le x xs).2 z ((sortOuter_perm fuel _ hlen).mem_iff.mp hz)

/-- Claim C6: for every input list of fetched/cached transactions, the
sequence returned by `GetTransactions` is sorted ascending by block time
with slot as the tiebreaker for equal block times, regardless of the merge
order of cache hits and newly fetched results. -/
theorem C6_get_transactions_sorted (merged : List Transaction) :
    List.Pairwise txLe (GetTransactionsModel merged) :=
  sortOuter_sorted merged.length merged le_rfl

/-! ## Accountant invariants (claims C7, C9, C10) -/

theorem calculatePositionPnL_closed (oracle : PriceOracle) (ps : List Position) (mint : String) :
    ∀ r ∈ calculatePositionPnL oracle ps mint, r.IsClosed = true →
      r.UnrealizedProfitLossValue = 0 := by
  intro r hr hclosed
  unfold calculatePositionPnL at hr
  rcases List.mem_map.mp hr with ⟨pos, _, rfl⟩
  simp only at hclosed ⊢
  simp [hclosed]

/-- Claim C7: for every sequence of buy/sell orders on one target asset,
every `PnLResult` produced by the accountant with `IsClosed = true` has
`UnrealizedProfitLossValue = 0`. -/
theorem C7_closed_position_zero_unrealized (oracle : PriceOracle) (orders : List Order)
    (mint : String) (rs : List PnLResult) (h : calculatePnL oracle orders mint = .ok rs) :
    ∀ r ∈ rs, r.IsClosed = true → r.UnrealizedProfitLossValue = 0 := by
  unfold calculatePnL at h
  cases hp : pnlLoop oracle mint { positions := [], currentPosition := none } orders with
  | error e => rw [hp] at h; simp at h
  | ok acc =>
    rw [hp] at h
    simp only [Except.ok.injEq] at h
    subst h
    exact calculatePositionPnL_closed oracle _ mint

section WitnessEvaluation

attribute [local semireducible] Rat.mul Rat.add Rat.sub Rat.inv Rat.ofScientific

theorem C7_closed_position_zero_unrealized_witness :
    calculatePnL oracleC7 [obuyC7, osellC7] "TGT" = .ok [resC7] ∧
    resC7.IsClosed = true ∧ resC7.UnrealizedProfitLossValue = 0 := by
  have h : calculatePnL oracleC7 [obuyC7, osellC7] "TGT" = .ok [resC7] := by rfl
  exact ⟨h, rfl,
    C7_closed_position_zero_unrealized oracleC7 [obuyC7, osellC7] "TGT" [resC7] h resC7
      (List.mem_singleton.mpr rfl) rfl⟩

end WitnessEvaluation

/-- Claim C9: a sell order for the target mint arriving while no position
is open (including a sell as the very first order) creates no position,
records nothing, and leaves the accountant state unchanged; the loop
continues with the subsequent orders exactly as if the order were absent. -/
theorem C9_sell_while_flat_noop (oracle : PriceOracle) (mint : String) (acc : PnlAcc)
    (order : Order) (rest : List Order) (a : ℚ)
    (hflat : acc.currentPosition = none)
    (hsell : order.SellToken.Mint = mint)
    (hbuy : order.BuyToken.Mint ≠ mint)
    (hparse : parseTokenAmount order false = .ok a) :
    processOrder oracle mint acc order = .ok acc ∧
    pnlLoop oracle mint acc (order :: rest) = pnlLoop oracle mint acc rest := by
  have hb : (order.BuyToken.Mint == mint) = false := beq_eq_false_iff_ne.mpr hbuy
  have hs : (order.SellToken.Mint == mint) = true := beq_iff_eq.mpr hsell
  have h1 : processOrder oracle mint acc order = .ok acc := by
    unfold processOrder
    rw [hb, hs]
    simp [hparse, hflat]
  refine ⟨h1, ?_⟩
  conv_lhs => rw [pnlLoop]
  rw [h1]

section WitnessEvaluation2

attribute [local semireducible] Rat.mul Rat.add Rat.sub Rat.inv Rat.ofScientific

theorem C9_sell_while_flat_noop_witness :
    processOrder oracleC7 "TGT" pnlAccInit osellC9 = .ok pnlAccInit ∧
    pnlLoop oracleC7 "TGT" pnlAccInit (osellC9 :: []) = pnlLoop oracleC7 "TGT" pnlAccInit [] :=
  C9_sell_while_flat_noop oracleC7 "TGT" pnlAccInit osellC9 [] 7 rfl rfl (by decide) (by rfl)

end WitnessEvaluation2

theorem processOrder_parse_error (oracle : PriceOracle) (mint : String) (acc : PnlAcc)
    (order : Order) (e : String)
    (hq : order.BuyToken.Mint = mint ∨ order.SellToken.Mint = mint)
    (hparse : parseTokenAmount order (order.BuyToken.Mint == mint) = .error e) :
    processOrder oracle mint acc order = .error e := by
  rcases hq with h | h
  · have hb : (order.BuyToken.Mint == mint) = true := beq_iff_eq.mpr h
    rw [hb] at hparse
    unfold processOrder
    rw [hb]
    simp [hparse]
  · have hs : (order.SellToken.Mint == mint) = true := beq_iff_eq.mpr h
    unfold processOrder
    rw [hs]
    simp [hparse]

theorem pnlLoop_error_of_bad (oracle : PriceOracle) (mint : String) :
    ∀ (orders : List Order) (acc : PnlAcc),
      (∃ o ∈ orders, (o.BuyToken.Mint = mint ∨ o.SellToken.Mint = mint) ∧
        ∃ e, parseTokenAmount o (o.BuyToken.Mint == mint) = .error e) →
      ∃ e2, pnlLoop oracle mint acc orders = .error e2 := by
  intro orders
  induction orders with
  | nil =>
    intro acc h
    obtain ⟨o, ho, _⟩ := h
    cases ho
  | cons o' rest ih =>
    intro acc h
    obtain ⟨o, ho, hq, e, hp⟩ := h
    rcases List.mem_cons.mp ho with rfl | hmem
    · refine ⟨e, ?_⟩
      unfold pnlLoop
      rw [processOrder_parse_error oracle mint acc o e hq hp]
    · cases hres : processOrder oracle mint acc o' with
      | error e2 =>
        refine ⟨e2, ?_⟩
        unfold pnlLoop
        rw [hres]
      | ok acc2 =>
        obtain ⟨e2, h2⟩ := ih acc2 ⟨o, hmem, hq, e, hp⟩
        refine ⟨e2, ?_⟩
        unfold pnlLoop
        rw [hres]
        exact h2

/-- Claim C10: `calculatePnL` parses each qualifying order's raw amount
string as a signed 64-bit integer, so the computation returns an error and
produces no results whenever some qualifying order's raw amount is not a
valid base-10 int64 (for example a magnitude of 2^63 or more). -/
theorem C10_int64_parse_error_aborts (oracle : PriceOracle) (orders : List Order) (mint : String)
    (h : ∃ o ∈ orders, (o.BuyToken.Mint = mint ∨ o.SellToken.Mint = mint) ∧
      ∃ e, parseTokenAmount o (o.BuyToken.Mint == mint) = .error e) :
    ∃ e2, calculatePnL oracle orders mint = .error e2 := by
  obtain ⟨e2, h2⟩ :=
    pnlLoop_error_of_bad oracle mint orders { positions := [], currentPosition := none } h
  refine ⟨e2, ?_⟩
  unfold calculatePnL
  rw [h2]

theorem C10_int64_parse_error_aborts_witness :
    (oBigC10.BuyToken.Mint = "TGT" ∧
      parseTokenAmount oBigC10 (oBigC10.BuyToken.Mint == "TGT") =
        .error "failed to parse amount: value out of range") ∧
    ∃ e2, calculatePnL oracleC7 [oBigC10] "TGT" = .error e2 :=
  ⟨⟨rfl, by rfl⟩,
    C10_int64_parse_error_aborts oracleC7 [oBigC10] "TGT"
      ⟨oBigC10, List.mem_singleton.mpr rfl, Or.inl rfl,
        "failed to parse amount: value out of range", by rfl⟩⟩

/-! ## Average-cost behaviour (claim C8) -/

section C8Evaluation

attribute [local semireducible] Rat.mul Rat.add Rat.sub Rat.inv Rat.ofScientific

/-- Claim C8 (counterexample): the running average cost is not monotonically
non-decreasing across consecutive buys — buying 1 unit at 2 USD and then
1 unit at 1 USD drops the average from 2 to 1.5. -/
theorem C8_average_cost_decreases_counterexample :
    (pnlLoop oracleC8 "TGT" pnlAccInit [o1C8]).toOption.map
        (fun acc => acc.currentPosition.map (fun p => p.AverageCost)) = some (some 2) ∧
    (pnlLoop oracleC8 "TGT" pnlAccInit [o1C8, o2C8]).toOption.map
        (fun acc => acc.currentPosition.map (fun p => p.AverageCost)) = some (some (3/2)) ∧
    ¬ ((2 : ℚ) ≤ 3/2) :=
  ⟨by rfl, by rfl, by norm_num⟩

end C8Evaluation

/-- Claim C8 (amended): within a single open position a sell never
recomputes the average cost — the updated (or closed and emitted) position
carries it unchanged — while a buy recomputes it as the investment-weighted
average, which is non-decreasing precisely when the buy's unit price is at
least the current average (so it can decrease on a buy below the average). -/
theorem C8_average_cost_amended :
    (∀ (oracle : PriceOracle) (mint : String) (acc : PnlAcc) (p : Position) (order : Order) (a : ℚ),
      acc.currentPosition = some p →
      order.SellToken.Mint = mint →
      order.BuyToken.Mint ≠ mint →
      parseTokenAmount order false = .ok a →
      ∃ acc2, processOrder oracle mint acc order = .ok acc2 ∧
        ((∃ p2, acc2.currentPosition = some p2 ∧ p2.AverageCost = p.AverageCost) ∨
         (acc2.currentPosition = none ∧
          ∃ q, acc2.positions = acc.positions ++ [q] ∧ q.AverageCost = p.AverageCost))) ∧
    (∀ (oracle : PriceOracle) (mint : String) (acc : PnlAcc) (p : Position) (order : Order) (a : ℚ),
      acc.currentPosition = some p →
      order.BuyToken.Mint = mint →
      order.SellToken.Mint ≠ mint →
      parseTokenAmount order true = .ok a →
      0 < a → 0 < p.TotalQuantity →
      p.AverageCost = p.TotalInvestment / p.TotalQuantity →
      ∃ acc2, processOrder oracle mint acc order = .ok acc2 ∧
        ∃ p2, acc2.currentPosition = some p2 ∧
          p2.AverageCost =
            (p.TotalInvestment + a * oracle.historical mint order.BlockTime) /
              (p.TotalQuantity + a) ∧
          (p.AverageCost ≤ p2.AverageCost ↔
            p.AverageCost ≤ oracle.historical mint order.BlockTime)) := by
  constructor
  · intro oracle mint acc p order a hopen hsell hbuy hparse
    have hb : (order.BuyToken.Mint == mint) = false := beq_eq_false_iff_ne.mpr hbuy
    have hs : (order.SellToken.Mint == mint) = true := beq_iff_eq.mpr hsell
    unfold processOrder
    rw [hb, hs]
    simp only [Bool.not_false, Bool.not_true, Bool.and_false, Bool.false_and,
      Bool.and_self, Bool.false_eq_true, if_false, hparse, hopen, Option.isNone_some,
      Bool.false_and, if_true]
    split
    · next hclose =>
      refine ⟨_, rfl, Or.inr ⟨rfl, ⟨_, rfl, rfl⟩⟩⟩
    · next hclose =>
      refine ⟨_, rfl, Or.inl ⟨_, rfl, rfl⟩⟩
  · intro oracle mint acc p order a hopen hbuy hsell hparse ha hq havg
    have hb : (order.BuyToken.Mint == mint) = true := beq_iff_eq.mpr hbuy
    have hs : (order.SellToken.Mint == mint) = false := beq_eq_false_iff_ne.mpr hsell
    have hiff : ∀ pr : ℚ,
        (p.AverageCost ≤ (p.TotalInvestment + a * pr) / (p.TotalQuantity + a) ↔
          p.AverageCost ≤ pr) := by
      intro pr
      rw [havg, div_le_div_iff₀ hq (by linarith : (0:ℚ) < p.TotalQuantity + a), div_le_iff₀ hq]
      constructor
      · intro h
        have h2 : p.TotalInvestment * a ≤ pr * p.TotalQuantity * a := by nlinarith
        exact le_of_mul_le_mul_right h2 ha
      · intro h
        nlinarith [mul_le_mul_of_nonneg_right h (le_of_lt ha)]
    unfold processOrder
    rw [hb, hs]
    simp only [Bool.not_false, Bool.not_true, Bool.and_false, Bool.false_eq_true, if_false,
      hparse, hopen, Option.isNone_some, Bool.false_and, if_true, Bool.and_true]
    refine ⟨_, rfl, _, rfl, ?_, ?_⟩
    · simp only [getTokenUSDValue, if_true, hbuy]
    · have := hiff (oracle.historical mint order.BlockTime)
      simpa [getTokenUSDValue, hbuy] using this

section C8Witness

attribute [local semireducible] Rat.mul Rat.add Rat.sub Rat.inv Rat.ofScientific

theorem C8_average_cost_amended_witness :
    (∃ acc2, processOrder oracleC8 "TGT" accW osellC9 = .ok acc2 ∧
      ((∃ p2, acc2.currentPosition = some p2 ∧ p2.AverageCost = posW.AverageCost) ∨
       (acc2.currentPosition = none ∧
        ∃ q, acc2.positions = accW.positions ++ [q] ∧ q.AverageCost = posW.AverageCost))) ∧
    (∃ acc2, processOrder oracleC8 "TGT" accW o2C8 = .ok acc2 ∧
      ∃ p2, acc2.currentPosition = some p2 ∧
        p2.AverageCost =
          (posW.TotalInvestment + 1 * oracleC8.historical "TGT" o2C8.BlockTime) /
            (posW.TotalQuantity + 1) ∧
        (posW.AverageCost ≤ p2.AverageCost ↔
          posW.AverageCost ≤ oracleC8.historical "TGT" o2C8.BlockTime)) :=
  ⟨C8_average_cost_amended.1 oracleC8 "TGT" accW posW osellC9 7 rfl rfl (by decide) (by rfl),
   C8_average_cost_amended.2 oracleC8 "TGT" accW posW o2C8 1 rfl rfl (by decide) (by rfl)
     (by norm_num) (by norm_num [posW]) (by norm_num [posW])⟩

end C8Witness

/-! ## Truncation of monetary outputs (claim C4) -/

theorem goTruncZ_eq_floor {x : ℚ} (h : 0 ≤ x) : goTruncZ x = ⌊x⌋ := by
  unfold goTruncZ
  rw [if_neg (not_lt.mpr h)]
  rfl

theorem goTruncZ_eq_ceil {x : ℚ} (h : x < 0) : goTruncZ x = ⌈x⌉ := by
  unfold goTruncZ
  rw [if_pos h]
  rfl

theorem goTrunc_abs_le (x : ℚ) : |goTrunc x| ≤ |x| := by
  unfold goTrunc
  rcases lt_or_le x 0 with h | h
  · rw [goTruncZ_eq_ceil h]
    have h1 : x ≤ (⌈x⌉ : ℚ) := Int.le_ceil x
    have h2 : (⌈x⌉ : ℚ) ≤ 0 := by
      have h0 : ⌈x⌉ ≤ (0 : ℤ) := Int.ceil_le.mpr (by exact_mod_cast le_of_lt h)
      exact_mod_cast h0
    rw [abs_of_nonpos h2, abs_of_nonpos (le_of_lt h)]
    linarith
  · rw [goTruncZ_eq_floor h]
    have h1 : (⌊x⌋ : ℚ) ≤ x := Int.floor_le x
    have h2 : (0 : ℚ) ≤ (⌊x⌋ : ℚ) := by
      have := Int.floor_nonneg.mpr h
      exact_mod_cast this
    rw [abs_of_nonneg h2, abs_of_nonneg h]
    exact h1

theorem abs_sub_goTrunc_lt_one (x : ℚ) : |x - goTrunc x| < 1 := by
  unfold goTrunc
  rcases lt_or_le x 0 with h | h
  · rw [goTruncZ_eq_ceil h]
    have h1 : x ≤ (⌈x⌉ : ℚ) := Int.le_ceil x
    have h2 : (⌈x⌉ : ℚ) < x + 1 := Int.ceil_lt_add_one x
    rw [abs_of_nonpos (by linarith)]
    linarith
  · rw [goTruncZ_eq_floor h]
    have h1 : (⌊x⌋ : ℚ) ≤ x := Int.floor_le x
    have h2 : x < (⌊x⌋ : ℚ) + 1 := Int.lt_floor_add_one x
    rw [abs_of_nonneg (by linarith)]
    linarith

theorem truncateToDecimals_int_multiple (x : ℚ) (d : Int) (hd : 0 < d) :
    ∃ n : ℤ, truncateToDecimals x d = (n : ℚ) / 10 ^ d.toNat := by
  refine ⟨goTruncZ (x * 10 ^ d.toNat), ?_⟩
  unfold truncateToDecimals
  rw [if_neg (not_le.mpr hd)]
  rfl

theorem truncateToDecimals_abs_le (x : ℚ) (d : Int) (hd : 0 < d) :
    |truncateToDecimals x d| ≤ |x| := by
  unfold truncateToDecimals
  rw [if_neg (not_le.mpr hd)]
  have hs : (0 : ℚ) < 10 ^ d.toNat := by positivity
  rw [abs_div, abs_of_pos hs, div_le_iff₀ hs]
  calc |goTrunc (x * 10 ^ d.toNat)| ≤ |x * 10 ^ d.toNat| := goTrunc_abs_le _
    _ = |x| * 10 ^ d.toNat := by rw [abs_mul, abs_of_pos hs]

theorem truncateToDecimals_close (x : ℚ) (d : Int) (hd : 0 < d) :
    |x - truncateToDecimals x d| < 1 / 10 ^ d.toNat := by
  unfold truncateToDecimals
  rw [if_neg (not_le.mpr hd)]
  have hs : (0 : ℚ) < 10 ^ d.toNat := by positivity
  have hrw : x - goTrunc (x * 10 ^ d.toNat) / 10 ^ d.toNat =
      (x * 10 ^ d.toNat - goTrunc (x * 10 ^ d.toNat)) / 10 ^ d.toNat := by
    field_simp
  rw [hrw, abs_div, abs_of_pos hs]
  gcongr
  exact abs_sub_goTrunc_lt_one _

section C4Evaluation

attribute [local semireducible] Rat.mul Rat.add Rat.sub Rat.inv Rat.ofScientific

/-- Claim C4 (counterexample): the realized-PnL percentage is not
truncated.  A closed position with realized PnL 1.999 on an investment of
100 has internal percentage 1.999; the code reports "2.00%" (Go's
`%.2f` rounding), while truncation to two places would give "1.99%". -/
theorem C4_percentage_rounded_counterexample :
    (calculatePnL oracleC4 [obuyC4, osellC4] "TGT").toOption =
      some [{ AverageCost := 100, ProfitLossPercentage := "2.00%", ProfitLossValue := 1999/1000,
              UnrealizedProfitLossValue := 0, IsClosed := true }] ∧
    percentStringTruncated ((1999/1000 : ℚ) / 100 * 100) = "1.99%" ∧
    ("2.00%" : String) ≠ "1.99%" :=
  ⟨by rfl, by rfl, by decide⟩

end C4Evaluation

/-- Claim C4 (amended): average cost, realized PnL value and unrealized
PnL value are truncated toward zero to 9, 10 and 2 fractional places
(each reported figure is an integer multiple of the grid step, has
magnitude at most the exact value, and differs from it by less than one
step); the realized-PnL percentage, however, is formatted by Go's `%.2f`,
which rounds to the nearest hundredth (with a trailing "%"), not by
truncation. -/
theorem C4_truncation_amended :
    (∀ (oracle : PriceOracle) (positions : List Position) (mint : String),
      ∀ r ∈ calculatePositionPnL oracle positions mint, ∃ pos ∈ positions,
        r.AverageCost = truncateToDecimals pos.AverageCost 9 ∧
        r.ProfitLossValue = truncateToDecimals pos.RealizedPnL 10 ∧
        r.IsClosed = pos.IsClosed ∧
        (pos.IsClosed = true → r.UnrealizedProfitLossValue = 0) ∧
        (pos.IsClosed = false → r.UnrealizedProfitLossValue =
          truncateToDecimals (pos.TotalAmount * getCurrentTokenPrice oracle mint - pos.TotalCostUSD) 2) ∧
        r.ProfitLossPercentage = sprintfPercent2
          (if pos.TotalInvestment > 0 then pos.RealizedPnL / pos.TotalInvestment * 100 else 0)) ∧
    (∀ (x : ℚ) (d : Int), 0 < d →
      (∃ n : ℤ, truncateToDecimals x d = (n : ℚ) / 10 ^ d.toNat) ∧
      |truncateToDecimals x d| ≤ |x| ∧
      |x - truncateToDecimals x d| < 1 / 10 ^ d.toNat) := by
  constructor
  · intro oracle positions mint r hr
    unfold calculatePositionPnL at hr
    rcases List.mem_map.mp hr with ⟨pos, hpos, rfl⟩
    refine ⟨pos, hpos, rfl, rfl, rfl, ?_, ?_, rfl⟩
    · intro h
      simp [h]
    · intro h
      simp [h]
  · intro x d hd
    exact ⟨truncateToDecimals_int_multiple x d hd, truncateToDecimals_abs_le x d hd,
      truncateToDecimals_close x d hd⟩

section C4Witness

attribute [local semireducible] Rat.mul Rat.add Rat.sub Rat.inv Rat.ofScientific

theorem C4_truncation_amended_witness :
    (∃ pos ∈ [posW],
      resC4W.AverageCost = truncateToDecimals pos.AverageCost 9 ∧
      resC4W.ProfitLossValue = truncateToDecimals pos.RealizedPnL 10 ∧
      resC4W.IsClosed = pos.IsClosed ∧
      (pos.IsClosed = true → resC4W.UnrealizedProfitLossValue = 0) ∧
      (pos.IsClosed = false → resC4W.UnrealizedProfitLossValue =
        truncateToDecimals (pos.TotalAmount * getCurrentTokenPrice oracleC8 "TGT" - pos.TotalCostUSD) 2) ∧
      resC4W.ProfitLossPercentage = sprintfPercent2
        (if pos.TotalInvestment > 0 then pos.RealizedPnL / pos.TotalInvestment * 100 else 0)) ∧
    ((∃ n : ℤ, truncateToDecimals (5/4) 2 = (n : ℚ) / 10 ^ (2:Int).toNat) ∧
      |truncateToDecimals (5/4) 2| ≤ |(5/4 : ℚ)| ∧
      |(5/4 : ℚ) - truncateToDecimals (5/4) 2| < 1 / 10 ^ (2:Int).toNat) :=
  ⟨C4_truncation_amended.1 oracleC8 [posW] "TGT" resC4W (by decide),
   C4_truncation_amended.2 (5/4) 2 (by norm_num)⟩

end C4Witness

/-! ## Concurrent fetch failure handling (claim C2) -/

/-- Claim C2 (code-bug evidence): a batch in which one per-signature fetch
errors does not return the first error as an error value — the collection
loop reads `res.tx.Signature` (the leftover debug comparison) before
checking `res.err`, and on the error path `res.tx` is nil, so the loop
panics with a nil-pointer dereference instead. -/
theorem C2_error_batch_nil_dereference :
    concurrentGetTransactions 2
        [{ index := 0, tx := some txArrived, err := none },
         { index := 1, tx := none, err := some "rpc error" }] =
      .crash "runtime error: invalid memory address or nil pointer dereference" ∧
    ∀ e, concurrentGetTransactions 2
        [{ index := 0, tx := some txArrived, err := none },
         { index := 1, tx := none, err := some "rpc error" }] ≠ .fail e := by
  have hc : concurrentGetTransactions 2
      [{ index := 0, tx := some txArrived, err := none },
       { index := 1, tx := none, err := some "rpc error" }] =
      .crash "runtime error: invalid memory address or nil pointer dereference" := by rfl
  refine ⟨hc, ?_⟩
  intro e h
  rw [hc] at h
  exact GoResult.noConfusion h

/-! ## Order assembly amounts (claim C1) -/

set_option maxRecDepth 200000 in
/-- Claim C1 (code-bug evidence): for the transaction `txC1`, whose derived
buy asset equals the target mint, the kept order's sell side is labelled
with the sell asset X but carries amount "5" — the wallet's balance delta
of the BUY asset (the target mint) — although the wallet's own delta for
the sell asset X in the same transaction is "100" (the source fetches the
sell-side change with key `buyTokenMint` at line 1004). -/
theorem C1_sell_amount_uses_buy_asset_delta :
    fetchJupiterOrders jupKeyC1 [txC1] (pubkeyString userKeyC1) (pubkeyString mintMC1) =
      .ok [ordC1] ∧
    ordC1.SellToken.Mint = pubkeyString mintXC1 ∧
    ordC1.SellToken.UiTokenAmount.amount = "5" ∧
    (GetBalanceChanges txC1raw (GetFullAccountKeys txC1raw)).toOption.map
        (fun p => mapFind2 p.2 (pubkeyString userKeyC1) (pubkeyString mintXC1)) =
      some (some { Amount := "100", Decimals := 6, UiAmountString := "0.000100" }) ∧
    ("5" : String) ≠ "100" :=
  ⟨by rfl, by rfl, rfl, by rfl, by decide⟩

/-! ## Decode failure scope (claim C3) -/

set_option maxRecDepth 200000 in
/-- Claim C3 (counterexample): a swap-event decode failure is not fatal to
that transaction only — with `txBad` (undecodable event payload) followed
by the good transaction `txC1`, the whole `fetchJupiterOrders` call
returns an error and produces no order list at all, although `txC1` alone
yields one order. -/
theorem C3_decode_failure_aborts_batch_counterexample :
    fetchJupiterOrders jupKeyC1 [txBad, txC1] (pubkeyString userKeyC1) (pubkeyString mintMC1) =
      .fail "unexpected end of data when deserializing swap event" ∧
    fetchJupiterOrders jupKeyC1 [txC1] (pubkeyString userKeyC1) (pubkeyString mintMC1) =
      .ok [ordC1] :=
  ⟨by rfl, by rfl⟩

theorem fetchOrdersLoop_fatal (jupiterPID : Pubkey) (user mint : String)
    (tx : Transaction) (rest : List Transaction) (e : String)
    (hfatal : processOneTx jupiterPID user mint tx = .fatal e) :
    ∀ (pre : List Transaction) (orders : List Order),
      (∀ t ∈ pre, isProceeding (processOneTx jupiterPID user mint t) = true) →
      fetchOrdersLoop jupiterPID user mint (pre ++ tx :: rest) orders = .fail e := by
  intro pre
  induction pre with
  | nil =>
    intro orders _
    simp only [List.nil_append]
    unfold fetchOrdersLoop
    rw [hfatal]
  | cons t pre' ih =>
    intro orders hpre
    have hproc : isProceeding (processOneTx jupiterPID user mint t) = true :=
      hpre t (List.mem_cons_self t pre')
    have hpre' : ∀ t2 ∈ pre', isProceeding (processOneTx jupiterPID user mint t2) = true :=
      fun t2 ht2 => hpre t2 (List.mem_cons_of_mem t ht2)
    simp only [List.cons_append]
    unfold fetchOrdersLoop
    cases hres : processOneTx jupiterPID user mint t with
    | skip => exact ih orders hpre'
    | keep o => exact ih (orders ++ [o]) hpre'
    | fatal e2 => rw [hres] at hproc; simp [isProceeding] at hproc
    | crash m => rw [hres] at hproc; simp [isProceeding] at hproc

/-- Claim C3 (amended): a per-transaction fatal error — in particular a
swap-event decode failure — aborts the entire order assembly: when the
loop reaches such a transaction (every earlier transaction was skipped or
kept), `fetchJupiterOrders` returns the error for the whole transaction
list, so the full request fails and no orders are produced. -/
theorem C3_decode_failure_fatal_amended (jupiterPID : Pubkey) (user mint : String)
    (pre : List Transaction) (tx : Transaction) (rest : List Transaction) (e : String)
    (hpre : ∀ t ∈ pre, isProceeding (processOneTx jupiterPID user mint t) = true)
    (hfatal : processOneTx jupiterPID user mint tx = .fatal e) :
    fetchJupiterOrders jupiterPID (pre ++ tx :: rest) user mint = .fail e := by
  unfold fetchJupiterOrders
  rw [if_neg (by simp)]
  exact fetchOrdersLoop_fatal jupiterPID user mint tx rest e hfatal pre [] hpre

set_option maxRecDepth 200000 in
theorem C3_decode_failure_fatal_amended_witness :
    (∀ t ∈ [txC1], isProceeding (processOneTx jupKeyC1 (pubkeyString userKeyC1) (pubkeyString mintMC1) t) = true) ∧
    processOneTx jupKeyC1 (pubkeyString userKeyC1) (pubkeyString mintMC1) txBad =
      .fatal "unexpected end of data when deserializing swap event" ∧
    fetchJupiterOrders jupKeyC1 ([txC1] ++ txBad :: []) (pubkeyString userKeyC1) (pubkeyString mintMC1) =
      .fail "unexpected end of data when deserializing swap event" := by
  have h1 : ∀ t ∈ [txC1],
      isProceeding (processOneTx jupKeyC1 (pubkeyString userKeyC1) (pubkeyString mintMC1) t) = true := by
    intro t ht
    rw [List.mem_singleton.mp ht]
    rfl
  have h2 : processOneTx jupKeyC1 (pubkeyString userKeyC1) (pubkeyString mintMC1) txBad =
      .fatal "unexpected end of data when deserializing swap event" := by rfl
  exact ⟨h1, h2,
    C3_decode_failure_fatal_amended jupKeyC1 (pubkeyString userKeyC1) (pubkeyString mintMC1)
      [txC1] txBad [] _ h1 h2⟩

/-! ## Node-store lemmas (claim C5 infrastructure) -/

theorem storeKeys_insertNode (s : NodeStore) (i : Int) (n : StackInstructionNode) :
    storeKeys (insertNode s i n) = storeKeys s ++ [i] := by
  simp [storeKeys, insertNode]

theorem storeKeys_updateNode (s : NodeStore) (i : Int) (f : StackInstructionNode → StackInstructionNode) :
    storeKeys (updateNode s i f) = storeKeys s := by
  unfold storeKeys updateNode
  rw [List.map_map]
  apply List.map_congr_left
  intro p _
  simp only [Function.comp_apply]
  split <;> rfl

theorem find?_updateNode (s : NodeStore) (i : Int) (f : StackInstructionNode → StackInstructionNode) (j : Int) :
    (updateNode s i f).find? (fun p => p.1 == j) =
      (s.find? (fun p => p.1 == j)).map (fun p => if p.1 == i then (p.1, f p.2) else p) := by
  unfold updateNode
  rw [List.find?_map]
  have hcomp : ((fun p => p.1 == j) ∘ fun (p : Int × StackInstructionNode) =>
      if p.1 == i then (p.1, f p.2) else p) = fun p => p.1 == j := by
    funext p
    by_cases h : p.1 == i <;> simp [Function.comp, h]
  rw [hcomp]

theorem lookupNode_not_mem {s : NodeStore} {i : Int} (h : i ∉ storeKeys s) :
    lookupNode s i = none := by
  induction s with
  | nil => rfl
  | cons p rest ih =>
    simp only [storeKeys, List.map_cons, List.mem_cons] at h
    push_neg at h
    have hne : (p.1 == i) = false := beq_eq_false_iff_ne.mpr (fun hc => h.1 hc.symm)
    simp only [lookupNode, List.find?, hne]
    exact ih (by simpa [storeKeys] using h.2)

theorem lookupNode_mem_keys {s : NodeStore} {i : Int} {n : StackInstructionNode}
    (h : lookupNode s i = some n) : i ∈ storeKeys s := by
  by_contra hc
  rw [lookupNode_not_mem hc] at h
  cases h

theorem lookupNode_insert_self {s : NodeStore} {i : Int} (n : StackInstructionNode)
    (h : i ∉ storeKeys s) : lookupNode (insertNode s i n) i = some n := by
  induction s with
  | nil => simp [lookupNode, insertNode, List.find?]
  | cons p rest ih =>
    simp only [storeKeys, List.map_cons, List.mem_cons] at h
    push_neg at h
    have hne : (p.1 == i) = false := beq_eq_false_iff_ne.mpr (fun hc => h.1 hc.symm)
    simp only [insertNode, List.cons_append, lookupNode, List.find?, hne] at *
    exact ih (by simpa [storeKeys] using h.2)

theorem lookupNode_insert_ne {s : NodeStore} {i j : Int} (n : StackInstructionNode)
    (h : j ≠ i) : lookupNode (insertNode s i n) j = lookupNode s j := by
  induction s with
  | nil => simp [lookupNode, insertNode, List.find?, beq_eq_false_iff_ne.mpr (fun hc => h hc.symm)]
  | cons p rest ih =>
    by_cases hp : p.1 == j
    · simp [lookupNode, insertNode, List.find?, hp]
    · simp only [insertNode, List.cons_append, lookupNode, List.find?, hp] at *
      exact ih

theorem lookupNode_update_self (s : NodeStore) (i : Int)
    (f : StackInstructionNode → StackInstructionNode) :
    lookupNode (updateNode s i f) i = (lookupNode s i).map f := by
  unfold lookupNode
  rw [find?_updateNode]
  cases h : s.find? (fun p => p.1 == i) with
  | none => rfl
  | some q =>
    have hq : (q.1 == i) = true := by
      have := List.find?_some h
      simpa using this
    simp [hq, beq_iff_eq.mp hq]

theorem lookupNode_update_ne {s : NodeStore} {i j : Int}
    (f : StackInstructionNode → StackInstructionNode) (h : j ≠ i) :
    lookupNode (updateNode s i f) j = lookupNode s j := by
  unfold lookupNode
  rw [find?_updateNode]
  cases hfind : s.find? (fun p => p.1 == j) with
  | none => rfl
  | some q =>
    have hq : (q.1 == j) = true := by
      have := List.find?_some hfind
      simpa using this
    have hne : (q.1 == i) = false := by
      rw [beq_iff_eq.mp hq]
      exact beq_eq_false_iff_ne.mpr h
    simp [hne, beq_eq_false_iff_ne.mp hne]

theorem lookup_foldUpdate_not_mem (f : StackInstructionNode → StackInstructionNode) :
    ∀ (rs : List Int) (s0 : NodeStore) (i : Int), i ∉ rs →
      lookupNode (rs.foldl (fun s r => updateNode s r f) s0) i = lookupNode s0 i := by
  intro rs
  induction rs with
  | nil => intro s0 i _; rfl
  | cons r rs' ih =>
    intro s0 i hi
    simp only [List.foldl_cons]
    rw [ih (updateNode s0 r f) i (fun hc => hi (List.mem_cons_of_mem r hc))]
    exact lookupNode_update_ne f (fun hc => hi (hc ▸ List.mem_cons_self r rs'))

theorem lookup_foldUpdate_mem (f : StackInstructionNode → StackInstructionNode) :
    ∀ (rs : List Int) (s0 : NodeStore) (t : Int), rs.Nodup → t ∈ rs →
      lookupNode (rs.foldl (fun s r => updateNode s r f) s0) t = (lookupNode s0 t).map f := by
  intro rs
  induction rs with
  | nil => intro s0 t _ ht; cases ht
  | cons r rs' ih =>
    intro s0 t hnd ht
    simp only [List.foldl_cons]
    rcases List.mem_cons.mp ht with rfl | hmem
    · have hnotin : t ∉ rs' := (List.nodup_cons.mp hnd).1
      rw [lookup_foldUpdate_not_mem f rs' _ t hnotin]
      exact lookupNode_update_self s0 t f
    · have hne : t ≠ r := fun hc => (List.nodup_cons.mp hnd).1 (hc ▸ hmem)
      rw [ih (updateNode s0 r f) t (List.nodup_cons.mp hnd).2 hmem]
      rw [lookupNode_update_ne f hne]

theorem length_updateNode (s : NodeStore) (i : Int) (f : StackInstructionNode → StackInstructionNode) :
    (updateNode s i f).length = s.length := by
  unfold updateNode
  exact List.length_map s _

theorem length_foldUpdate (f : StackInstructionNode → StackInstructionNode) :
    ∀ (rs : List Int) (s0 : NodeStore),
      (rs.foldl (fun s r => updateNode s r f) s0).length = s0.length := by
  intro rs
  induction rs with
  | nil => intro s0; rfl
  | cons r rs' ih =>
    intro s0
    simp only [List.foldl_cons]
    rw [ih (updateNode s0 r f), length_updateNode]

theorem findParentUp_found (store : NodeStore) (fuel : Nat) (idx : Int)
    (n : StackInstructionNode) (t : Nat)
    (h : lookupNode store idx = some n) (hh : n.StackHeight = t) :
    findParentUp store (fuel + 1) idx t = some idx := by
  unfold findParentUp
  rw [h]
  simp [hh]

theorem findParentByStackHeight_self (store : NodeStore) (fuel : Nat) (idx : Int)
    (n : StackInstructionNode) (t : Nat)
    (h : lookupNode store idx = some n) (hh : n.StackHeight = t) :
    findParentByStackHeight store (fuel + 1) idx t = some idx := by
  unfold findParentByStackHeight
  rw [findParentUp_found store fuel idx n t h hh]

theorem nodeDepth_zero (store : NodeStore) (fuel : Nat) (i : Int) (n : StackInstructionNode)
    (h : lookupNode store i = some n) (hp : n.Parent = none ∨ n.Parent = some (-1)) :
    nodeDepth store (fuel + 1) i = some 0 := by
  unfold nodeDepth
  rw [h]
  rcases hp with hp | hp <;> simp [hp]

theorem nodeDepth_one (store : NodeStore) (fuel : Nat) (i t : Int)
    (n nt : StackInstructionNode)
    (h : lookupNode store i = some n) (hp : n.Parent = some t) (ht : t ≠ -1)
    (hlt : lookupNode store t = some nt) (hpt : nt.Parent = none ∨ nt.Parent = some (-1)) :
    nodeDepth store (fuel + 2) i = some 1 := by
  have hstep : nodeDepth store (fuel + 1 + 1) i = (nodeDepth store (fuel + 1) t).map (· + 1) := by
    unfold nodeDepth
    rw [h]
    simp [hp, ht]
    congr 1
  rw [show fuel + 2 = fuel + 1 + 1 from rfl, hstep,
    nodeDepth_zero store fuel t nt hlt hpt]
  rfl

theorem buildNodes_ok :
    ∀ (instrs : List IndexedInstruction) (roots : List Int) (bound : Int) (store : NodeStore),
      GoodRemaining roots bound instrs → StoreInv roots bound store →
      ∃ store2, buildNodes instrs store roots = .ok (store2, roots ++ topsOf instrs) ∧
        StoreInv (roots ++ topsOf instrs) (bound + instrs.length) store2 := by
  intro instrs roots bound store hgood
  induction hgood generalizing store with
  | nil roots bound =>
    intro hinv
    refine ⟨store, by simp [buildNodes, topsOf], ?_⟩
    simpa [topsOf] using hinv
  | top roots bound instr rest hI hP hS hrest ih =>
    intro hinv
    obtain ⟨hb0, hkeys, hroots, hshape⟩ := hinv
    have hcond : (instr.ParentTopIndex == -1) = true := beq_iff_eq.mpr hP
    have hfresh : instr.Index ∉ storeKeys store := by
      intro hc
      have h2 := hkeys _ hc
      rw [hI] at h2
      omega
    have hinv2 : StoreInv (roots ++ [bound]) (bound + 1)
        (insertNode store instr.Index
          { Index := instr.Index, StackHeight := instr.StackHeight,
            ProgramIDIndex := instr.ProgramIDIndex, Data := instr.Data,
            Accounts := instr.Accounts, Parent := none, Children := [] }) := by
      refine ⟨by omega, ?_, ?_, ?_⟩
      · intro k hk
        rw [storeKeys_insertNode] at hk
        rcases List.mem_append.mp hk with hk | hk
        · have := hkeys k hk
          omega
        · rw [List.mem_singleton.mp hk, hI]
          omega
      · intro r hr
        rcases List.mem_append.mp hr with hr | hr
        · obtain ⟨n, hn, props⟩ := hroots r hr
          have hrlt := hkeys r (lookupNode_mem_keys hn)
          have hrne : r ≠ instr.Index := by rw [hI]; omega
          exact ⟨n, by rw [lookupNode_insert_ne _ hrne]; exact hn, props⟩
        · have hrb : r = bound := List.mem_singleton.mp hr
          subst hrb
          rw [← hI]
          exact ⟨_, lookupNode_insert_self _ hfresh, hS, rfl, rfl⟩
      · intro i n hn
        by_cases hib : i = instr.Index
        · rw [hib, lookupNode_insert_self _ hfresh] at hn
          injection hn with hn
          subst hn
          exact ⟨hib.symm, Or.inl ⟨hS, rfl⟩⟩
        · rw [lookupNode_insert_ne _ hib] at hn
          obtain ⟨hidx, hsh⟩ := hshape i n hn
          refine ⟨hidx, hsh.imp id ?_⟩
          rintro ⟨t, ht, h1, h2⟩
          exact ⟨t, List.mem_append_left _ ht, h1, h2⟩
    obtain ⟨store2, hbuild, hinv3⟩ := ih _ hinv2
    have htops : roots ++ topsOf (instr :: rest) = (roots ++ [instr.Index]) ++ topsOf rest := by
      simp [topsOf, hcond, List.append_assoc]
    refine ⟨store2, ?_, ?_⟩
    · unfold buildNodes
      rw [hcond]
      simp only [if_true]
      rw [← hI] at hbuild
      rw [hbuild, htops]
    · rw [htops, hI]
      have hlen : bound + ((instr :: rest).length : Int) = (bound + 1) + (rest.length : Int) := by
        simp only [List.length_cons]
        push_cast
        ring
      rw [hlen]
      exact hinv3
  | inner roots bound instr rest hI hP hS hrest ih =>
    intro hinv
    obtain ⟨hb0, hkeys, hroots, hshape⟩ := hinv
    obtain ⟨nt, hnt, hntSH, hntP, hntI⟩ := hroots instr.ParentTopIndex hP
    have htkey := hkeys _ (lookupNode_mem_keys hnt)
    have hcond : (instr.ParentTopIndex == -1) = false := by
      apply beq_eq_false_iff_ne.mpr
      omega
    have hfresh : instr.Index ∉ storeKeys store := by
      intro hc
      have h2 := hkeys _ hc
      rw [hI] at h2
      omega
    have htne : instr.ParentTopIndex ≠ instr.Index := by
      rw [hI]
      omega
    have hfind : findParentByStackHeight store (store.length + 1) instr.ParentTopIndex
        (instr.StackHeight - 1) = some instr.ParentTopIndex := by
      rw [hS]
      exact findParentByStackHeight_self store store.length instr.ParentTopIndex nt 0 hnt hntSH
    have hinv2 : StoreInv roots (bound + 1)
        (updateNode
          (insertNode store instr.Index
            { Index := instr.Index, StackHeight := instr.StackHeight,
              ProgramIDIndex := instr.ProgramIDIndex, Data := instr.Data,
              Accounts := instr.Accounts, Parent := some instr.ParentTopIndex, Children := [] })
          instr.ParentTopIndex
          (fun p => { p with Children := p.Children ++ [instr.Index] })) := by
      refine ⟨by omega, ?_, ?_, ?_⟩
      · intro k hk
        rw [storeKeys_updateNode, storeKeys_insertNode] at hk
        rcases List.mem_append.mp hk with hk | hk
        · have := hkeys k hk
          omega
        · rw [List.mem_singleton.mp hk, hI]
          omega
      · intro r hr
        obtain ⟨nr, hnr, p1, p2, p3⟩ := hroots r hr
        have hrne : r ≠ instr.Index := by
          have := hkeys r (lookupNode_mem_keys hnr)
          rw [hI]
          omega
        by_cases hrt : r = instr.ParentTopIndex
        · subst hrt
          refine ⟨{ nr with Children := nr.Children ++ [instr.Index] }, ?_, p1, p2, p3⟩
          rw [lookupNode_update_self, lookupNode_insert_ne _ hrne, hnr]
          rfl
        · refine ⟨nr, ?_, p1, p2, p3⟩
          rw [lookupNode_update_ne _ hrt, lookupNode_insert_ne _ hrne]
          exact hnr
      · intro i n hn
        by_cases hit : i = instr.ParentTopIndex
        · subst hit
          rw [lookupNode_update_self, lookupNode_insert_ne _ htne, hnt] at hn
          injection hn with hn
          subst hn
          exact ⟨hntI, Or.inl ⟨hntSH, hntP⟩⟩
        · rw [lookupNode_update_ne _ hit] at hn
          by_cases hib : i = instr.Index
          · rw [hib, lookupNode_insert_self _ hfresh] at hn
            injection hn with hn
            subst hn
            exact ⟨hib.symm, Or.inr ⟨instr.ParentTopIndex, hP, hS, rfl⟩⟩
          · rw [lookupNode_insert_ne _ hib] at hn
            exact hshape i n hn
    obtain ⟨store2, hbuild, hinv3⟩ := ih _ hinv2
    have htops : topsOf (instr :: rest) = topsOf rest := by
      simp [topsOf, hcond]
    refine ⟨store2, ?_, ?_⟩
    · unfold buildNodes
      rw [hcond]
      simp only [Bool.false_eq_true, if_false]
      rw [hnt, hfind]
      simp only []
      rw [hbuild, htops]
    · rw [htops]
      have hlen : bound + ((instr :: rest).length : Int) = (bound + 1) + (rest.length : Int) := by
        simp only [List.length_cons]
        push_cast
        ring
      rw [hlen]
      exact hinv3

theorem topLevelIndexedFrom_length (i : Nat) (l : List CompiledInstruction) :
    (topLevelIndexedFrom i l).length = l.length := by
  induction l generalizing i with
  | nil => rfl
  | cons c cs ih => simp [topLevelIndexedFrom, ih]

theorem topLevelIndexedFrom_get? (l : List CompiledInstruction) :
    ∀ (i k : Nat) (x : IndexedInstruction), (topLevelIndexedFrom i l).get? k = some x →
      x.Index = ((i + k : Nat) : Int) ∧ x.ParentTopIndex = -1 ∧ x.StackHeight = 0 := by
  induction l with
  | nil => intro i k x h; cases h
  | cons c cs ih =>
    intro i k x h
    cases k with
    | zero =>
      rw [topLevelIndexedFrom, List.get?_cons_zero] at h
      injection h with h
      subst h
      exact ⟨by simp, rfl, rfl⟩
    | succ k' =>
      rw [topLevelIndexedFrom, List.get?_cons_succ] at h
      obtain ⟨h1, h2, h3⟩ := ih (i + 1) k' x h
      refine ⟨?_, h2, h3⟩
      rw [h1]
      congr 1
      omega

theorem accInv_topLevel (instrs : List CompiledInstruction) :
    AccInv instrs.length (topLevelIndexedFrom 0 instrs) := by
  refine ⟨by rw [topLevelIndexedFrom_length], ?_⟩
  intro k x h
  have hlt : k < (topLevelIndexedFrom 0 instrs).length := by
    by_contra hc
    push_neg at hc
    rw [List.get?_eq_none.mpr hc] at h
    cases h
  rw [topLevelIndexedFrom_length] at hlt
  obtain ⟨h1, h2, h3⟩ := topLevelIndexedFrom_get? instrs 0 k x h
  exact ⟨by simpa using h1, fun _ => ⟨h2, h3⟩, fun hk => absurd hlt (by omega)⟩

theorem mem_rangeInt {N : Nat} {r : Int} : r ∈ rangeInt N ↔ 0 ≤ r ∧ r < (N : Int) := by
  simp only [rangeInt, List.mem_map, List.mem_range, Int.ofNat_eq_coe]
  constructor
  · rintro ⟨m, hm, rfl⟩
    exact ⟨Int.ofNat_nonneg m, by exact_mod_cast hm⟩
  · rintro ⟨h0, hN⟩
    exact ⟨r.toNat, by omega, by omega⟩

theorem rangeInt_nodup (N : Nat) : (rangeInt N).Nodup :=
  (List.nodup_range N).map (fun _ _ h => Int.ofNat.inj h)

theorem accInv_append_inner (N : Nat) (acc : List IndexedInstruction) (p : Nat)
    (pid : Nat) (d a : List Nat) (hp : p < N) (hinv : AccInv N acc) :
    AccInv N (acc ++ [{ Index := (acc.length : Int)
                        ParentTopIndex := (p : Int)
                        StackHeight := 1
                        ProgramIDIndex := pid
                        Data := d
                        Accounts := a }]) := by
  obtain ⟨hlen, hget⟩ := hinv
  refine ⟨by simp; omega, ?_⟩
  intro k x h
  by_cases hk : k < acc.length
  · rw [List.get?_append hk] at h
    exact hget k x h
  · push_neg at hk
    rw [List.get?_append_right hk] at h
    rcases Nat.lt_or_ge (k - acc.length) 1 with hk1 | hk1
    · have hk0 : k - acc.length = 0 := by omega
      rw [hk0, List.get?_cons_zero] at h
      injection h with h
      subst h
      have hkeq : k = acc.length := by omega
      refine ⟨by rw [hkeq], fun hkN => absurd hkN (by omega), fun _ => ⟨?_, rfl⟩⟩
      show (p : Int) ∈ rangeInt N
      exact mem_rangeInt.mpr ⟨Int.ofNat_nonneg p, by exact_mod_cast hp⟩
    · rw [List.get?_eq_none.mpr (by simpa using hk1)] at h
      cases h

theorem innerFold_accInv (N : Nat) (p : Nat) (hp : p < N) :
    ∀ (ixs : List CompiledInstruction) (acc : List IndexedInstruction), AccInv N acc →
      AccInv N (ixs.foldl
        (fun l ix =>
          l ++ [{ Index := (l.length : Int), ParentTopIndex := (p : Int),
                  StackHeight := 1, ProgramIDIndex := ix.programIDIndex,
                  Data := ix.data, Accounts := ix.accounts }]) acc) := by
  intro ixs
  induction ixs with
  | nil => intro acc h; exact h
  | cons ix rest ih =>
    intro acc h
    rw [List.foldl_cons]
    exact ih _ (accInv_append_inner N acc p ix.programIDIndex ix.data ix.accounts hp h)

theorem addInnerGroup_accInv (N : Nat) (acc acc' : List IndexedInstruction)
    (g : InnerInstructionGroup) (hinv : AccInv N acc)
    (h : addInnerGroup N acc g = .ok acc') : AccInv N acc' := by
  simp only [addInnerGroup] at h
  split at h
  · cases h
  · rename_i htop
    push_neg at htop
    injection h with h
    subst h
    have hplt : g.index < acc.length := lt_of_lt_of_le htop hinv.1
    have hx : acc.get? g.index = some (acc.get ⟨g.index, hplt⟩) := List.get?_eq_get hplt
    have hx0 : (acc.get ⟨g.index, hplt⟩).StackHeight = 0 :=
      ((hinv.2 g.index _ hx).2.1 htop).2
    rw [hx]
    simp only [Option.map_some', Option.getD_some, hx0, Nat.zero_add]
    exact innerFold_accInv N g.index htop g.instructions acc hinv

theorem foldlM_addInnerGroup_accInv (N : Nat) :
    ∀ (gs : List InnerInstructionGroup) (acc acc' : List IndexedInstruction),
      AccInv N acc → gs.foldlM (addInnerGroup N) acc = .ok acc' → AccInv N acc' := by
  intro gs
  induction gs with
  | nil =>
    intro acc acc' h hfold
    injection hfold with hfold
    subst hfold
    exact h
  | cons g rest ih =>
    intro acc acc' h hfold
    rw [List.foldlM_cons] at hfold
    cases hg : addInnerGroup N acc g with
    | error e =>
      rw [hg] at hfold
      cases hfold
    | ok acc1 =>
      rw [hg] at hfold
      exact ih acc1 acc' (addInnerGroup_accInv N acc acc1 g h hg) hfold

theorem getAll_accInv (tx : TxModel) (acc : List IndexedInstruction)
    (h : getAllInstructionsWithStackHeight tx = .ok acc) :
    AccInv tx.message.instructions.length acc := by
  unfold getAllInstructionsWithStackHeight at h
  exact foldlM_addInnerGroup_accInv _ _ _ _ (accInv_topLevel _) h

theorem goodRemaining_drop (N : Nat) (acc : List IndexedInstruction) (hinv : AccInv N acc) :
    ∀ (d j : Nat), acc.length - j ≤ d →
      GoodRemaining (rangeInt (min j N)) ((j : Nat) : Int) (acc.drop j) := by
  intro d
  induction d with
  | zero =>
    intro j hj
    rw [List.drop_eq_nil_of_le (by omega)]
    exact GoodRemaining.nil _ _
  | succ d ih =>
    intro j hj
    by_cases hjl : acc.length ≤ j
    · rw [List.drop_eq_nil_of_le hjl]
      exact GoodRemaining.nil _ _
    · push_neg at hjl
      have hdrop : acc.drop j = acc.get ⟨j, hjl⟩ :: acc.drop (j + 1) := List.drop_eq_get_cons hjl
      have hx : acc.get? j = some (acc.get ⟨j, hjl⟩) := List.get?_eq_get hjl
      obtain ⟨hIdx, htop, hinner⟩ := hinv.2 j _ hx
      have hnext := ih (j + 1) (by omega)
      rw [hdrop]
      have hc : ((j : Nat) : Int) + 1 = (((j + 1 : Nat)) : Int) := by push_cast; ring
      by_cases hjN : j < N
      · obtain ⟨hP, hS⟩ := htop hjN
        have hm1 : min j N = j := Nat.min_eq_left (by omega)
        have hm2 : min (j + 1) N = j + 1 := Nat.min_eq_left (by omega)
        rw [hm1]
        refine GoodRemaining.top _ _ _ _ hIdx hP hS ?_
        rw [hm2] at hnext
        have hr : rangeInt j ++ [((j : Nat) : Int)] = rangeInt (j + 1) := by
          simp [rangeInt, List.range_succ]
        rw [hr, hc]
        exact hnext
      · push_neg at hjN
        obtain ⟨hPmem, hS⟩ := hinner hjN
        have hm1 : min j N = N := Nat.min_eq_right hjN
        have hm2 : min (j + 1) N = N := Nat.min_eq_right (by omega)
        rw [hm1]
        refine GoodRemaining.inner _ _ _ _ hIdx hPmem hS ?_
        rw [hm2] at hnext
        rw [hc]
        exact hnext

theorem goodRemaining_of_accInv (N : Nat) (acc : List IndexedInstruction)
    (hinv : AccInv N acc) : GoodRemaining [] 0 acc := by
  have h := goodRemaining_drop N acc hinv acc.length 0 (by omega)
  rw [show min 0 N = 0 from by omega] at h
  simpa [rangeInt] using h

theorem topsOf_drop (N : Nat) (acc : List IndexedInstruction) (hinv : AccInv N acc) :
    ∀ (d j : Nat), acc.length - j ≤ d →
      topsOf (acc.drop j) = ((List.range N).drop j).map Int.ofNat := by
  have hNlen : N ≤ acc.length := hinv.1
  intro d
  induction d with
  | zero =>
    intro j hj
    have h2 : (List.range N).length ≤ j := by rw [List.length_range]; omega
    rw [List.drop_eq_nil_of_le (by omega), List.drop_eq_nil_of_le h2]
    rfl
  | succ d ih =>
    intro j hj
    by_cases hjl : acc.length ≤ j
    · have h2 : (List.range N).length ≤ j := by rw [List.length_range]; omega
      rw [List.drop_eq_nil_of_le hjl, List.drop_eq_nil_of_le h2]
      rfl
    · push_neg at hjl
      have hdrop : acc.drop j = acc.get ⟨j, hjl⟩ :: acc.drop (j + 1) := List.drop_eq_get_cons hjl
      have hx : acc.get? j = some (acc.get ⟨j, hjl⟩) := List.get?_eq_get hjl
      obtain ⟨hIdx, htop, hinner⟩ := hinv.2 j _ hx
      rw [hdrop]
      by_cases hjN : j < N
      · obtain ⟨hP, hS⟩ := htop hjN
        have hcond : ((acc.get ⟨j, hjl⟩).ParentTopIndex == -1) = true := beq_iff_eq.mpr hP
        simp only [topsOf, hcond, if_true]
        rw [ih (j + 1) (by omega), hIdx]
        have hjr : j < (List.range N).length := by rw [List.length_range]; exact hjN
        rw [List.drop_eq_get_cons hjr, List.get_range]
        simp [List.map_cons]
      · push_neg at hjN
        obtain ⟨hPmem, hS⟩ := hinner hjN
        have hne : (acc.get ⟨j, hjl⟩).ParentTopIndex ≠ -1 := by
          have := mem_rangeInt.mp hPmem
          omega
        have hcond : ((acc.get ⟨j, hjl⟩).ParentTopIndex == -1) = false :=
          beq_eq_false_iff_ne.mpr hne
        simp only [topsOf, hcond, Bool.false_eq_true, if_false]
        rw [ih (j + 1) (by omega)]
        have h2 : (List.range N).length ≤ j := by rw [List.length_range]; omega
        rw [List.drop_eq_nil_of_le h2, List.drop_eq_nil_of_le (by omega)]

theorem topsOf_eq_rangeInt (N : Nat) (acc : List IndexedInstruction) (hinv : AccInv N acc) :
    topsOf acc = rangeInt N := by
  have h := topsOf_drop N acc hinv acc.length 0 (by omega)
  simpa [rangeInt] using h

theorem sortByIndex_sorted :
    ∀ (l : List IndexedInstruction),
      List.Pairwise (fun a b : IndexedInstruction => a.Index ≤ b.Index) l →
      sortByIndex l = l := by
  intro l
  induction l with
  | nil => intro _; rfl
  | cons x xs ih =>
    intro h
    obtain ⟨hhead, htail⟩ := List.pairwise_cons.mp h
    rw [sortByIndex, ih htail]
    cases xs with
    | nil => rfl
    | cons y ys =>
      have hxy : x.Index ≤ y.Index := hhead y (List.mem_cons_self y ys)
      simp [insertByIndex, hxy]

theorem accInv_pairwise (N : Nat) (acc : List IndexedInstruction) (hinv : AccInv N acc) :
    List.Pairwise (fun a b : IndexedInstruction => a.Index ≤ b.Index) acc := by
  rw [List.pairwise_iff_get]
  intro i j hij
  have hi := (hinv.2 i (acc.get i) (List.get?_eq_get i.2)).1
  have hj := (hinv.2 j (acc.get j) (List.get?_eq_get j.2)).1
  rw [hi, hj]
  have : (i : Nat) < (j : Nat) := hij
  exact_mod_cast this.le

/-- C5: for every transaction whose flattened instruction list has `N`
top-level instructions (`N > 0`) and any inner-instruction groups,
`ParseInstructionTreeByStackHeight` succeeds; when `N > 1` it returns the
synthetic root with sentinel index `-1` and stack height 0 whose children
are exactly the `N` top-level nodes `0, …, N-1`, each child's parent
pointing back to that root; when `N = 1` the single top-level node (index
0) itself is returned; and every stored node's stack height equals its
depth below its top-level ancestor in the returned tree. -/
theorem C5_instruction_tree_shape (tx : TxModel) (N : Nat) (acc : List IndexedInstruction)
    (hN : N = tx.message.instructions.length)
    (hacc : getAllInstructionsWithStackHeight tx = .ok acc)
    (hpos : 0 < N) :
    ∃ store rootId, ParseInstructionTreeByStackHeight tx = .ok (store, rootId) ∧
      (1 < N → rootId = -1 ∧
        (∃ vr, lookupNode store (-1) = some vr ∧ vr.StackHeight = 0 ∧ vr.Parent = none ∧
          vr.Children = rangeInt N) ∧
        (∀ r ∈ rangeInt N, ∃ n, lookupNode store r = some n ∧ n.StackHeight = 0 ∧
          n.Parent = some (-1))) ∧
      (N = 1 → rootId = 0 ∧
        ∃ n, lookupNode store 0 = some n ∧ n.StackHeight = 0 ∧ n.Parent = none) ∧
      (∀ fuel i n, lookupNode store i = some n →
        nodeDepth store (fuel + 2) i = some n.StackHeight) := by
  have hinv : AccInv N acc := by
    rw [hN]
    exact getAll_accInv tx acc hacc
  have hlen : N ≤ acc.length := hinv.1
  have hgood : GoodRemaining [] 0 acc := goodRemaining_of_accInv N acc hinv
  have hsort : sortByIndex acc = acc := sortByIndex_sorted acc (accInv_pairwise N acc hinv)
  have hSI : StoreInv [] 0 [] := by
    refine ⟨le_refl 0, ?_, ?_, ?_⟩
    · intro k hk
      simp [storeKeys] at hk
    · intro r hr
      cases hr
    · intro i n hn
      simp [lookupNode] at hn
  obtain ⟨store, hbuild, hSinv⟩ := buildNodes_ok acc [] 0 [] hgood hSI
  have htops : topsOf acc = rangeInt N := topsOf_eq_rangeInt N acc hinv
  rw [htops] at hbuild hSinv
  simp only [List.nil_append] at hbuild hSinv
  have hzadd : (0 : Int) + (acc.length : Int) = (acc.length : Int) := by ring
  rw [hzadd] at hSinv
  obtain ⟨hb0, hkeys, hroots, hshape⟩ := hSinv
  have hne0 : ¬ acc.length = 0 := by omega
  have hlenr : (rangeInt N).length = N := by simp [rangeInt]
  by_cases h1 : 1 < N
  · have hP : ParseInstructionTreeByStackHeight tx = Except.ok
        ((rangeInt N).foldl
          (fun s r => updateNode s r (fun n => { n with Parent := some (-1) }))
          (insertNode store (-1)
            { Index := -1, StackHeight := 0, ProgramIDIndex := 0, Data := [], Accounts := [],
              Parent := none, Children := rangeInt N }), -1) := by
      unfold ParseInstructionTreeByStackHeight
      rw [hacc]
      simp only [hsort, hbuild, if_neg hne0, hlenr, if_pos h1]
    set st2 := (rangeInt N).foldl
        (fun s r => updateNode s r (fun n => { n with Parent := some (-1) }))
        (insertNode store (-1)
          { Index := -1, StackHeight := 0, ProgramIDIndex := 0, Data := [], Accounts := [],
            Parent := none, Children := rangeInt N }) with hst2
    have hm1 : (-1 : Int) ∉ storeKeys store := fun hc => by
      have := hkeys _ hc
      omega
    have hvr2 : lookupNode st2 (-1) = some
        { Index := -1, StackHeight := 0, ProgramIDIndex := 0, Data := [], Accounts := [],
          Parent := none, Children := rangeInt N } := by
      rw [hst2, lookup_foldUpdate_not_mem _ (rangeInt N) _ (-1)
        (fun hc => by have := mem_rangeInt.mp hc; omega)]
      exact lookupNode_insert_self _ hm1
    have hroot2 : ∀ r ∈ rangeInt N, ∃ nr, lookupNode st2 r = some nr ∧
        nr.StackHeight = 0 ∧ nr.Parent = some (-1) := by
      intro r hr
      obtain ⟨nr, hnr, hsh, hpar, hidx⟩ := hroots r hr
      have hrne : r ≠ -1 := by
        have := mem_rangeInt.mp hr
        omega
      refine ⟨{ nr with Parent := some (-1) }, ?_, hsh, rfl⟩
      rw [hst2, lookup_foldUpdate_mem _ (rangeInt N) _ r (rangeInt_nodup N) hr,
        lookupNode_insert_ne _ hrne, hnr]
      rfl
    refine ⟨st2, -1, hP, fun _ => ⟨rfl, ⟨_, hvr2, rfl, rfl, rfl⟩, hroot2⟩,
      fun hc => absurd hc (by omega), ?_⟩
    intro fuel i n hn
    by_cases hi1 : i = -1
    · subst hi1
      rw [hvr2] at hn
      injection hn with hn
      subst hn
      exact nodeDepth_zero st2 (fuel + 1) (-1) _ hvr2 (Or.inl rfl)
    · by_cases hir : i ∈ rangeInt N
      · obtain ⟨nr, hnr2, hsh2, hpar2⟩ := hroot2 i hir
        rw [hnr2] at hn
        injection hn with hn
        subst hn
        rw [hsh2]
        exact nodeDepth_zero st2 (fuel + 1) i nr hnr2 (Or.inr hpar2)
      · have hlk : lookupNode st2 i = lookupNode store i := by
          rw [hst2, lookup_foldUpdate_not_mem _ (rangeInt N) _ i hir,
            lookupNode_insert_ne _ hi1]
        rw [hlk] at hn
        obtain ⟨hidx, hsh⟩ := hshape i n hn
        rcases hsh with ⟨hsh0, hpar0⟩ | ⟨t, htm, hsh1, hpart⟩
        · rw [hsh0]
          exact nodeDepth_zero st2 (fuel + 1) i n (by rw [hlk]; exact hn) (Or.inl hpar0)
        · obtain ⟨nt, hnt2, hsht2, hpat2⟩ := hroot2 t htm
          have htne : t ≠ -1 := by
            have := mem_rangeInt.mp htm
            omega
          rw [hsh1]
          exact nodeDepth_one st2 fuel i t n nt (by rw [hlk]; exact hn) hpart htne hnt2
            (Or.inr hpat2)
  · have hN1 : N = 1 := by omega
    subst hN1
    have hr1 : rangeInt 1 = [(0 : Int)] := by decide
    have hP : ParseInstructionTreeByStackHeight tx = Except.ok (store, 0) := by
      unfold ParseInstructionTreeByStackHeight
      rw [hacc]
      simp only [hsort, hbuild, if_neg hne0, hr1]
      rfl
    refine ⟨store, 0, hP, fun hc => absurd hc (by omega), fun _ => ⟨rfl, ?_⟩, ?_⟩
    · obtain ⟨n0, hn0, hsh, hpar, hidx⟩ := hroots 0 (by rw [hr1]; exact List.mem_singleton_self 0)
      exact ⟨n0, hn0, hsh, hpar⟩
    · intro fuel i n hn
      obtain ⟨hidx, hsh⟩ := hshape i n hn
      rcases hsh with ⟨hsh0, hpar0⟩ | ⟨t, htm, hsh1, hpart⟩
      · rw [hsh0]
        exact nodeDepth_zero store (fuel + 1) i n hn (Or.inl hpar0)
      · obtain ⟨nt, hnt, hsht, hpat, hidt⟩ := hroots t htm
        have htne : t ≠ -1 := by
          have := mem_rangeInt.mp htm
          omega
        rw [hsh1]
        exact nodeDepth_one store fuel i t n nt hn hpart htne hnt (Or.inl hpat)

/-- Witness for C5: the tree-shape theorem applied to the concrete
transaction `txC5w` (two top-level instructions plus one inner group). -/
theorem C5_instruction_tree_shape_witness :
    (2 = txC5w.message.instructions.length ∧
      getAllInstructionsWithStackHeight txC5w = Except.ok accC5w ∧ 0 < 2) ∧
    (∃ store rootId, ParseInstructionTreeByStackHeight txC5w = .ok (store, rootId) ∧
      (1 < 2 → rootId = -1 ∧
        (∃ vr, lookupNode store (-1) = some vr ∧ vr.StackHeight = 0 ∧ vr.Parent = none ∧
          vr.Children = rangeInt 2) ∧
        (∀ r ∈ rangeInt 2, ∃ n, lookupNode store r = some n ∧ n.StackHeight = 0 ∧
          n.Parent = some (-1))) ∧
      (2 = 1 → rootId = 0 ∧
        ∃ n, lookupNode store 0 = some n ∧ n.StackHeight = 0 ∧ n.Parent = none) ∧
      (∀ fuel i n, lookupNode store i = some n →
        nodeDepth store (fuel + 2) i = some n.StackHeight)) :=
  ⟨⟨by decide, by rfl, by decide⟩,
    C5_instruction_tree_shape txC5w 2 accC5w (by decide) (by rfl) (by decide)⟩

end SolanaPnl
